import Mathlib

/-!
Verification of the go-docx library (an OOXML/WordprocessingML package and
document-body codec) against its natural-language specification.

The Go source is shallowly embedded: Go structs become Lean structures, Go
maps become association lists, pointer mutation becomes explicit state
passing, `int` becomes `Int`, and the streaming XML parser (which in Go
consumes `encoding/xml` tokens) becomes a fuel-indexed recursive function
over a list of XML token events.  Fallible operations return `Except` or
`Option`.
-/

namespace Docx

/-! ## Go string helpers -/

/-- ASCII case folding of a character; models the behaviour of Go
`strings.ToLower` on the ASCII inputs the library compares against. -/
def goToLowerChar (c : Char) : Char :=
  if 'A' ≤ c ∧ c ≤ 'Z' then Char.ofNat (c.toNat + 32) else c

/-- Models Go `strings.ToLower` (restricted to ASCII case folding). -/
def goToLower (s : String) : String :=
  String.mk (s.data.map goToLowerChar)

/-- Value of a nonempty all-digit character list; `none` on empty input or a
non-digit.  Helper for the `strconv.Atoi` model. -/
def digitsVal : List Char → Nat → Option Nat
  | [], acc => some acc
  | c :: rest, acc =>
      if c.isDigit then digitsVal rest (acc * 10 + (c.toNat - 48)) else none

/-- Sign-and-digits reading of `strconv.Atoi` on a character list: an
optional sign followed by one or more decimal digits, without the range
check. -/
def goAtoiUnchecked (cs : List Char) : Option Int :=
  match cs with
  | [] => none
  | c :: rest =>
      if c = '+' then
        if rest.isEmpty then none else (digitsVal rest 0).map Int.ofNat
      else if c = '-' then
        if rest.isEmpty then none
        else (digitsVal rest 0).map (fun n => -(Int.ofNat n))
      else (digitsVal cs 0).map Int.ofNat

/-- Models Go `strconv.Atoi` on a character list, including its `ErrRange`
failure: a parsed value outside the 64-bit range of Go `int` is an error
(`none`), exactly as callers checking `err == nil` observe. -/
def goAtoiChars (cs : List Char) : Option Int :=
  match goAtoiUnchecked cs with
  | some v =>
      if v < -9223372036854775808 ∨ 9223372036854775807 < v then none
      else some v
  | none => none

/-- Models Go `strconv.Atoi`. -/
def goAtoi (s : String) : Option Int :=
  goAtoiChars s.data

/-- Decimal digit character, as produced by `fmt.Sprintf("%d", _)`. -/
def digitCh (d : Nat) : Char := Char.ofNat (48 + d)

/-- Fuel-indexed digit expansion (the fuel strictly exceeds the value, so
it never runs out; see `natDigits_eq`). -/
def natDigitsAux : Nat → Nat → List Char
  | 0, _ => []
  | fuel + 1, n =>
    if n < 10 then [digitCh n]
    else natDigitsAux fuel (n / 10) ++ [digitCh (n % 10)]

/-- Decimal digit string of a natural number (big-endian character list);
models `fmt.Sprintf("%d", n)` for non-negative `n`. -/
def natDigits (n : Nat) : List Char := natDigitsAux (n + 1) n

/-- Decimal representation of a natural number as a string. -/
def natRepr (n : Nat) : String := String.mk (natDigits n)

/-- Decimal representation of an integer, as `fmt.Sprintf("%d", _)` prints
a Go `int`. -/
def intRepr (i : Int) : String :=
  if i < 0 then "-" ++ natRepr (-i).toNat else natRepr i.toNat

/-- Two's-complement wrap-around of a mathematical integer into the 64-bit
range of Go `int`, modelling machine-integer overflow. -/
def wrapInt64 (x : Int) : Int :=
  (x + 9223372036854775808) % 18446744073709551616 - 9223372036854775808

/-! ## Relationships (package.go)

`Relationship` mirrors the Go struct; a part's relationship list
(`p.relations[baseURI]`) is modelled as the list itself, since every
operation below works on one owner's list at a time. -/

structure Relationship where
  id : String
  relType : String
  target : String
  targetMode : String
deriving DecidableEq, Repr

/-- Numeric suffix of an `"rId"`-prefixed relationship ID: models the
`strings.HasPrefix(rel.ID, "rId")` test followed by
`strconv.Atoi(strings.TrimPrefix(rel.ID, "rId"))` in `nextRelationshipID`. -/
def relIdSuffix (id : String) : Option Int :=
  match id.data with
  | c1 :: c2 :: c3 :: rest =>
      if c1 = 'r' then
        if c2 = 'I' then
          if c3 = 'd' then goAtoiChars rest else none
        else none
      else none
  | _ => none

/-- The running-maximum loop of `Package.nextRelationshipID`: the largest
parsed `rId` suffix, starting from 0. -/
def maxRelId (rels : List Relationship) : Int :=
  rels.foldl
    (fun m r =>
      match relIdSuffix r.id with
      | some n => if n > m then n else m
      | none => m)
    0

/-- Models `Package.nextRelationshipID` for one owner's relationship list:
`maxID` is a Go `int`, so the increment wraps at the 64-bit boundary
(`maxID` itself stays in range because every parsed suffix does). -/
def nextRelationshipID (rels : List Relationship) : String :=
  "rId" ++ intRepr (wrapInt64 (maxRelId rels + 1))

/-- The match condition of the search loop in
`Package.ensureRelationshipWithMode` (the second disjunct is the Go code's
redundant `existingMode == "" && targetMode == ""` test). -/
def relMatches (relType target targetMode : String) (rel : Relationship) : Bool :=
  rel.relType == relType && rel.target == target &&
    (rel.targetMode == targetMode || (rel.targetMode == "" && targetMode == ""))

/-- Models `Package.ensureRelationshipWithMode` on one owner's relationship
list: returns the resulting ID together with the updated list. -/
def ensureRelationshipWithMode (rels : List Relationship)
    (relType target targetMode : String) : String × List Relationship :=
  match rels.find? (relMatches relType target targetMode) with
  | some rel => (rel.id, rels)
  | none =>
      let id := nextRelationshipID rels
      (id, rels ++ [{ id := id, relType := relType, target := target,
                      targetMode := targetMode }])

/-- Models `Package.ensureRelationship` (internal mode). -/
def ensureRelationship (rels : List Relationship)
    (relType target : String) : String × List Relationship :=
  ensureRelationshipWithMode rels relType target ""

/-- Models `DocumentPart.relationshipTarget`: linear search of the owner's
relationship list, `none` when the ID is absent (the Go function returns
`("", "", false)`). -/
def relationshipTarget (rels : List Relationship) (relID : String) :
    Option (String × String) :=
  match rels.find? (fun rel => rel.id == relID) with
  | some rel => some (rel.target, rel.targetMode)
  | none => none

/-! ## Content types and package saving (package.go)

The content-type registries (Go maps) are modelled as association lists;
`writeContentTypes` collects the keys, sorts them, and emits the manifest
entries, exactly as the Go function does (the Go map's arbitrary iteration
order is irrelevant because the keys are sorted before use). -/

def ContentTypeRels : String :=
  "application/vnd.openxmlformats-package.relationships+xml"

structure CTDefault where
  extension : String
  contentType : String
deriving DecidableEq, Repr

structure CTOverride where
  partName : String
  contentType : String
deriving DecidableEq, Repr

/-- The `<Types>` document written to `[Content_Types].xml`. -/
@[ext]
structure TypesManifest where
  defaults : List CTDefault
  overrides : List CTOverride
deriving DecidableEq, Repr

/-- Go map read `m[k]` on an association-list model (zero value `""` when the
key is absent). -/
def mapGet (m : List (String × String)) (k : String) : String :=
  match m.find? (fun kv => kv.1 == k) with
  | some kv => kv.2
  | none => ""

/-- Models `sort.Strings` (byte-wise lexicographic order; UTF-8 byte order
coincides with the code-point order underlying Lean's `String` order). -/
def sortStrings (l : List String) : List String :=
  l.insertionSort (· ≤ ·)

/-- Models `Package.writeContentTypes`: returns the manifest together with the
(possibly seeded) default-content-type registry.  When the defaults registry
is empty the Go code seeds it with the `rels` and `xml` entries instead of
sorting; otherwise the collected keys are sorted.  Override keys are always
sorted. -/
def writeContentTypes (defaultContentTypes contentTypes : List (String × String)) :
    TypesManifest × List (String × String) :=
  let overrides :=
    (sortStrings (contentTypes.map (·.1))).map
      (fun pn => CTOverride.mk pn (mapGet contentTypes pn))
  let keys := defaultContentTypes.map (·.1)
  if keys.isEmpty then
    let seeded := defaultContentTypes ++
      [("rels", ContentTypeRels), ("xml", "application/xml")]
    ({ defaults := ["rels", "xml"].map (fun ext => CTDefault.mk ext (mapGet seeded ext)),
       overrides := overrides }, seeded)
  else
    ({ defaults := (sortStrings keys).map
        (fun ext => CTDefault.mk ext (mapGet defaultContentTypes ext)),
       overrides := overrides }, defaultContentTypes)

structure Part where
  uri : String
  contentType : String
  data : String
deriving DecidableEq, Repr

/-- The package state relevant to saving.  The open zip reader handle and the
core-properties part are not relevant to any claim and are omitted. -/
structure Package where
  parts : List (String × Part)
  relations : List (String × List Relationship)
  filePath : String
  contentTypes : List (String × String)
  defaultContentTypes : List (String × String)
deriving DecidableEq, Repr

/-- Models `Package.relationshipsURI`: the well-known root location for the
empty base URI, otherwise `dir/_rels/base.rels`. -/
def relationshipsURI (baseURI : String) : String :=
  if baseURI = "" then "_rels/.rels"
  else
    let parts := baseURI.splitOn "/"
    String.intercalate "/"
      (parts.dropLast ++ ["_rels", (parts.getLastD "") ++ ".rels"])

/-- The zip entries produced by `Package.SaveAs`: every part, one
relationships file per owning part with relationships, and the single
content-types manifest. -/
structure SaveOutput where
  partEntries : List String
  relEntries : List String
  manifest : TypesManifest
deriving DecidableEq, Repr

/-- Models `Package.SaveAs` on its success path (file/zip I/O failure aborts
with an error and is not modelled): writes all entries and records the target
path in `filePath`. -/
def Package.saveAs (p : Package) (path : String) : Package × SaveOutput :=
  let res := writeContentTypes p.defaultContentTypes p.contentTypes
  ({ p with filePath := path, defaultContentTypes := res.2 },
   { partEntries := p.parts.map (·.1),
     relEntries := p.relations.map (fun kv => relationshipsURI kv.1),
     manifest := res.1 })

/-- Models `Package.Save`: requires a recorded file path, else directs the
caller to `SaveAs`. -/
def Package.save (p : Package) : Except String (Package × SaveOutput) :=
  if p.filePath = "" then Except.error "no file path set, use SaveAs instead"
  else Except.ok (p.saveAs p.filePath)

/-! ## Document model: pictures, runs, paragraphs, sections
(run.go, paragraph.go, section.go)

Owner back-pointers (`owner *DocumentPart`, `row *TableRow`, ...) are not
modelled: they only wire serialization-time relationship creation and do not
carry document content.  Structure-field defaults are the Go zero values. -/

structure Picture where
  relID : String := ""
  target : String := ""
  widthEMU : Int := 0
  heightEMU : Int := 0
  docPrID : Int := 0
  name : String := ""
  description : String := ""
deriving DecidableEq, Repr

structure Run where
  text : String := ""
  bold : Bool := false
  italic : Bool := false
  underline : String := ""
  size : Int := 0
  color : String := ""
  font : String := ""
  highlight : String := ""
  breakType : String := ""
  hasBreak : Bool := false
  hyperlinkURL : String := ""
  hyperlinkAnchor : String := ""
  strike : Bool := false
  doubleStrike : Bool := false
  smallCaps : Bool := false
  allCaps : Bool := false
  shadow : Bool := false
  outline : Bool := false
  emboss : Bool := false
  imprint : Bool := false
  picture : Option Picture := none
  charSpacing : Option Int := none
  kern : Option Int := none
  baselineShift : Option Int := none
deriving DecidableEq, Repr

/-- Models `NewRun`. -/
def NewRun (text : String) : Run :=
  { text := text, underline := "none", size := 22, color := "auto",
    font := "Calibri", highlight := "auto" }

structure TabStop where
  position : Int := 0
  alignment : String := ""
  leader : String := ""
deriving DecidableEq, Repr

structure ParagraphBorder where
  style : String := ""
  color : String := ""
  size : Int := 0
  space : Int := 0
  shadow : Bool := false
deriving DecidableEq, Repr

structure ParagraphShading where
  pattern : String := ""
  fill : String := ""
  color : String := ""
deriving DecidableEq, Repr

/-- A header/footer reference recorded while parsing section properties
(`headerReference`/`footerReference`); the lazily loaded `Header`/`Footer`
part itself carries no information used by any claim and is not modelled. -/
structure HFRef where
  refType : String
  relID : String
deriving DecidableEq, Repr

structure Section where
  startType : String := ""
  pageWidth : Int := 0
  pageHeight : Int := 0
  marginTop : Int := 0
  marginRight : Int := 0
  marginBottom : Int := 0
  marginLeft : Int := 0
  orientation : String := ""
  headerRefs : List HFRef := []
  footerRefs : List HFRef := []
deriving DecidableEq, Repr

/-- Models `NewSection`. -/
def NewSection (startType : String) : Section :=
  { startType := startType, pageWidth := 11906, pageHeight := 16838,
    marginTop := 1440, marginRight := 1440, marginBottom := 1440,
    marginLeft := 1440 }

structure Paragraph where
  runs : List Run := []
  style : String := ""
  alignment : String := ""
  numberingApplied : Bool := false
  numberingID : Int := 0
  numberingLevel : Int := 0
  indentLeft : Int := 0
  indentRight : Int := 0
  indentFirstLine : Int := 0
  indentHanging : Int := 0
  indentLeftSet : Bool := false
  indentRightSet : Bool := false
  indentFirstLineSet : Bool := false
  indentHangingSet : Bool := false
  spacingBefore : Int := 0
  spacingAfter : Int := 0
  spacingLine : Int := 0
  spacingLineRule : String := ""
  spacingBeforeSet : Bool := false
  spacingAfterSet : Bool := false
  spacingLineSet : Bool := false
  spacingLineRuleSet : Bool := false
  tabStops : List TabStop := []
  keepWithNext : Option Bool := none
  keepLines : Option Bool := none
  pageBreakBefore : Option Bool := none
  widowControl : Option Bool := none
  borders : List (String × ParagraphBorder) := []
  shading : Option ParagraphShading := none
  sectionBreak : Option Section := none
deriving DecidableEq, Repr

/-- Models `NewParagraph` (alignment `WDAlignParagraphLeft`). -/
def NewParagraph : Paragraph := { alignment := "left" }

/-- Association-list update standing in for a keyed Go map write. -/
def mapSet {α : Type} (m : List (String × α)) (k : String) (v : α) :
    List (String × α) :=
  if m.any (fun kv => kv.1 == k) then
    m.map (fun kv => if kv.1 == k then (k, v) else kv)
  else m ++ [(k, v)]

/-- Association-list delete standing in for a keyed Go map delete. -/
def mapDel {α : Type} (m : List (String × α)) (k : String) :
    List (String × α) :=
  m.filter (fun kv => kv.1 != k)

/-- Models `Paragraph.SetBorder`. -/
def Paragraph.setBorder (p : Paragraph) (side : String)
    (border : ParagraphBorder) : Paragraph :=
  if side = "" then p
  else if border.style = "" then { p with borders := mapDel p.borders side }
  else { p with borders := mapSet p.borders side border }

/-- Models `Paragraph.SetNumbering` (negative levels are clamped to 0). -/
def Paragraph.setNumbering (p : Paragraph) (numID level : Int) : Paragraph :=
  { p with numberingApplied := true, numberingID := numID,
           numberingLevel := if level < 0 then 0 else level }

/-- Models `Paragraph.AddTabStop` (empty alignment/leader default to
left/none). -/
def Paragraph.addTabStop (p : Paragraph) (position : Int)
    (alignment leader : String) : Paragraph :=
  { p with tabStops := p.tabStops ++
      [{ position := position,
         alignment := if alignment = "" then "left" else alignment,
         leader := if leader = "" then "none" else leader }] }

/-- Models `Run.AddBreak`. -/
def Run.addBreak (r : Run) (breakType : String) : Run :=
  { r with breakType := breakType, hasBreak := true }

/-- Models `Run.SetHyperlink` (setting a URL clears the anchor). -/
def Run.setHyperlink (r : Run) (url : String) : Run :=
  { r with hyperlinkURL := url, hyperlinkAnchor := "" }

/-- Models `Run.SetHyperlinkAnchor` (setting an anchor clears the URL). -/
def Run.setHyperlinkAnchor (r : Run) (anchor : String) : Run :=
  { r with hyperlinkAnchor := anchor, hyperlinkURL := "" }

/-- Models `Run.HasHyperlink`. -/
def Run.hasHyperlink (r : Run) : Bool :=
  r.hyperlinkURL != "" || r.hyperlinkAnchor != ""

/-! ## Tables (table.go) -/

structure Shading where
  pattern : String := ""
  fill : String := ""
  color : String := ""
deriving DecidableEq, Repr

structure TableBorder where
  style : String := ""
  color : String := ""
  size : Int := 0
  space : Int := 0
deriving DecidableEq, Repr

structure TableLook where
  val : String := ""
  firstRow : Bool := false
  lastRow : Bool := false
  firstColumn : Bool := false
  lastColumn : Bool := false
  noHBand : Bool := false
  noVBand : Bool := false
deriving DecidableEq, Repr

structure TableCellMargins where
  top : Option Int := none
  left : Option Int := none
  bottom : Option Int := none
  right : Option Int := none
deriving DecidableEq, Repr

structure TableCell where
  paragraphs : List Paragraph := []
  width : Int := 0
  gridSpan : Int := 0
  verticalMerge : String := ""
  verticalAlign : String := ""
  borders : List (String × TableBorder) := []
  shading : Option Shading := none
deriving DecidableEq, Repr

structure TableRow where
  cells : List TableCell := []
deriving DecidableEq, Repr

structure Table where
  rows : List TableRow := []
  gridColumns : Int := 0
  grid : List Int := []
  width : Int := 0
  widthType : String := ""
  indent : Int := 0
  indentType : String := ""
  indentSet : Bool := false
  style : String := ""
  layout : String := ""
  look : Option TableLook := none
  alignment : String := ""
  bordersDefined : Bool := false
  borders : List (String × TableBorder) := []
  shading : Option Shading := none
  cellMargins : Option TableCellMargins := none
deriving DecidableEq, Repr

/-- Models `Table.SetBorder`. -/
def Table.setBorder (t : Table) (side : String) (border : TableBorder) :
    Table :=
  if side = "" then t
  else if border.style = "" then
    let borders := mapDel t.borders side
    { t with borders := borders,
             bordersDefined := if borders.length = 0 then false
                               else t.bordersDefined }
  else { t with borders := mapSet t.borders side border,
                bordersDefined := true }

/-- Models `TableCell.GridSpan` (default 1 when the stored span is ≤ 1). -/
def TableCell.gridSpanVal (tc : TableCell) : Int :=
  if tc.gridSpan ≤ 1 then 1 else tc.gridSpan

/-- Models `NewTable`.  Go takes `int` arguments and `make` panics on a
negative size, so the dimensions are modelled as `Nat`. -/
def NewTable (rows cols : Nat) : Table :=
  let cell : TableCell := { paragraphs := [NewParagraph], width := 1440 }
  let row : TableRow := { cells := List.replicate cols cell }
  let base : Table :=
    { rows := List.replicate rows row, gridColumns := (cols : Int),
      grid := List.replicate cols 1440, widthType := "auto" }
  ["top", "left", "bottom", "right", "insideH", "insideV"].foldl
    (fun t side => t.setBorder side
      { style := "single", color := "auto", size := 4, space := 0 })
    base

/-- The removal loop of `MergeCellsHorizontally` (`for i := end; i > start;
i--`): accumulates widths of and removes the cells at indices
`i, i-1, ..., i-count+1`. -/
def hMergeLoop (cells : List TableCell) (i : Nat) :
    Nat → Int → List TableCell × Int
  | 0, acc => (cells, acc)
  | c + 1, acc =>
      let acc' := acc + (cells.getD i {}).width
      hMergeLoop (cells.eraseIdx i) (i - 1) c acc'

/-- Models `Table.MergeCellsHorizontally`.  The Go method mutates the
receiver and returns an `error`; here it returns the final table state
together with the error, if any. -/
def Table.mergeCellsHorizontally (t : Table) (rowIndex startI endI : Int) :
    Table × Option String :=
  if rowIndex < 0 ∨ (t.rows.length : Int) ≤ rowIndex then
    (t, some "row index out of range")
  else if startI < 0 ∨ endI < startI then
    (t, some "invalid start/end for horizontal merge")
  else
    let row := t.rows.getD rowIndex.toNat {}
    if (row.cells.length : Int) ≤ endI then
      (t, some "end index out of range")
    else
      let span := endI - startI + 1
      if span ≤ 1 then (t, none)
      else
        let startN := startI.toNat
        let endN := endI.toNat
        let cell := row.cells.getD startN {}
        let res := hMergeLoop row.cells endN (endN - startN) cell.width
        let merged := { cell with width := res.2, gridSpan := span }
        let row' := { row with cells := res.1.set startN merged }
        ({ t with rows := t.rows.set rowIndex.toNat row' }, none)

/-- The cell marking of one `MergeCellsVertically` iteration: the cell in
column `col` gets its vertical-merge state set (the Go code mutates the cell
in place through its pointer). -/
def vMarkRow (row : TableRow) (col : Nat) (vm : String) : TableRow :=
  let cell := row.cells.getD col {}
  { row with cells := row.cells.set col { cell with verticalMerge := vm } }

/-- The marking loop of `MergeCellsVertically`: marks the cell in column
`col` of rows `i, i+1, ..., i+count-1`, validating the column bound row by
row (as the Go code does, inside the loop).  The Go `if/else` assigning
`Restart`/`Continue` is expressed through `vMarkRow` with the merge value
selected up front. -/
def vMergeLoop (col startR : Nat) :
    Table → Nat → Nat → Table × Option String
  | t, _, 0 => (t, none)
  | t, i, c + 1 =>
      let row := t.rows.getD i {}
      if row.cells.length ≤ col then
        (t, some "column index out of range for row")
      else
        let row' := vMarkRow row col
          (if i = startR then "restart" else "continue")
        vMergeLoop col startR { t with rows := t.rows.set i row' } (i + 1) c

/-- Models `Table.MergeCellsVertically` (final state plus error). -/
def Table.mergeCellsVertically (t : Table) (column startRow endRow : Int) :
    Table × Option String :=
  if column < 0 then (t, some "column index must be non-negative")
  else if startRow < 0 ∨ endRow < startRow ∨ (t.rows.length : Int) ≤ endRow then
    (t, some "invalid start/end row for vertical merge")
  else
    vMergeLoop column.toNat startRow.toNat t startRow.toNat
      (endRow.toNat + 1 - startRow.toNat)

/-! ### Column-width inference (`Table.columnWidths`) -/

/-- The inner cell loop of `columnWidths` (`for i := 0; i < span && col <
len(widths); i++`): distributes `per`(+1 while remainder lasts) over the
spanned columns, filling only still-unfilled columns with a positive share. -/
def fillSpan (widths : List Int) (filled : List Bool) (col : Nat) :
    Nat → Int → Int → List Int × List Bool × Nat
  | 0, _, _ => (widths, filled, col)
  | r + 1, per, rem =>
      if col < widths.length then
        let w := if rem > 0 then per + 1 else per
        let rem' := if rem > 0 then rem - 1 else rem
        if ¬(filled.getD col false) ∧ w > 0 then
          fillSpan (widths.set col w) (filled.set col true) (col + 1) r per rem'
        else
          fillSpan widths filled (col + 1) r per rem'
      else (widths, filled, col)

/-- The share `fillSpan` writes at offset `c - col` (helper for the
equivalence proof). -/
def spanVal (col c : Nat) (per rem : Int) : Int :=
  per + (if ((c : Int) - (col : Int)) < rem then 1 else 0)

/-- The condition under which `fillSpan` fills column `c` (helper for the
equivalence proof). -/
def spanHit (filled : List Bool) (col span c : Nat) (per rem : Int) : Prop :=
  col ≤ c ∧ c < col + span ∧ ¬ (filled.getD c false = true) ∧
    0 < spanVal col c per rem

instance (filled : List Bool) (col span c : Nat) (per rem : Int) :
    Decidable (spanHit filled col span c per rem) := by
  unfold spanHit
  infer_instance

/-- The per-row cell scan of `columnWidths`.  Division and modulus are only
taken with `total > 0` and `span ≥ 1`, where Lean's `Int` operators agree
with Go's. -/
def fillCells (widths : List Int) (filled : List Bool) (col : Nat) :
    List TableCell → List Int × List Bool × Nat
  | [] => (widths, filled, col)
  | cell :: rest =>
      let span := cell.gridSpanVal.toNat
      let total := cell.width
      if total ≤ 0 then fillCells widths filled (col + span) rest
      else
        let res := fillSpan widths filled col span (total / (span : Int))
          (total % (span : Int))
        fillCells res.1 res.2.1 res.2.2 rest

/-- The row loop of `columnWidths`, including the early exit once every
column is filled. -/
def widthsLoop (widths : List Int) (filled : List Bool) :
    List TableRow → List Int × List Bool
  | [] => (widths, filled)
  | row :: rest =>
      let res := fillCells widths filled 0 row.cells
      if res.2.1.all (fun b => b) then (res.1, res.2.1)
      else widthsLoop res.1 res.2.1 rest

/-- Models `Table.columnWidths`: an explicit grid wins; otherwise infer from
the rows and default still-unfilled columns to 1440 twips. -/
def Table.columnWidths (t : Table) : List Int :=
  if 0 < t.grid.length then t.grid
  else if t.gridColumns ≤ 0 then []
  else
    let n := t.gridColumns.toNat
    let res := widthsLoop (List.replicate n 0) (List.replicate n false) t.rows
    res.1.map (fun x => if x = 0 then 1440 else x)

/-- The `<w:tblGrid>` rendering of a width list (negative widths are clamped
to 0), as in `Table.tblGridXML`. -/
def tblGridOfWidths (widths : List Int) : String :=
  if widths.length = 0 then ""
  else
    "<w:tblGrid>" ++
      String.join (widths.map (fun w =>
        "<w:gridCol w:w=\"" ++ intRepr (if w < 0 then 0 else w) ++ "\"/>")) ++
      "</w:tblGrid>"

/-- Models `Table.tblGridXML`: renders exactly `t.columnWidths`. -/
def Table.tblGridXML (t : Table) : String :=
  tblGridOfWidths t.columnWidths

/-! ### Specification-side description of column-width inference.

`specRowCand` and `specInferColumnWidths` are written from the
specification's words ("scan rows top-to-bottom; for each encountered cell,
distribute its total width evenly across the columns it spans (any remainder
from integer division assigned to the leading spanned columns); the first row
that supplies a width for a given column wins — later disagreeing rows are
ignored for that column; any column still unfilled after all rows defaults to
one inch"), to be compared against the code-side `Table.columnWidths`. -/

/-- The width that one row's cell scan supplies for column `c` (`none` when
the row supplies nothing for that column). -/
def specRowCand (nLen : Nat) : Nat → List TableCell → Nat → Option Int
  | _, [], _ => none
  | col, cell :: rest, c =>
      let span := cell.gridSpanVal.toNat
      let total := cell.width
      if total ≤ 0 then specRowCand nLen (col + span) rest c
      else if col ≤ c ∧ c < col + span ∧ c < nLen then
        let per := total / (span : Int)
        let rem := total % (span : Int)
        let w := per + (if ((c : Int) - (col : Int)) < rem then 1 else 0)
        if 0 < w then some w else none
      else specRowCand nLen (col + span) rest c

/-- First `some` in a list of candidates (first row wins). -/
def firstSome : List (Option Int) → Option Int
  | [] => none
  | some w :: _ => some w
  | none :: rest => firstSome rest

/-- The specification's description of the inferred grid: per column, the
first row that supplies a width wins, otherwise one inch (1440 twips). -/
def specInferColumnWidths (nLen : Nat) (rows : List TableRow) : List Int :=
  (List.range nLen).map (fun c =>
    match firstSome (rows.map (fun row => specRowCand nLen 0 row.cells c)) with
    | some w => w
    | none => 1440)

/-! ## Document part mutation (parts.go, document.go) -/

inductive BodyElement where
  | par (p : Paragraph)
  | tbl (t : Table)
  | sect (s : Section)
deriving DecidableEq, Repr

/-- The body-side state of a `DocumentPart`, together with the relationship
list its owning package keeps for it (`p.relations[dp.Part.URI]`) and the
drawing counter.  The cached XML bytes (`dp.Part.Data`, rewritten by
`updateXMLData` after each mutation) duplicate the body state and are not
modelled. -/
structure DocumentPart where
  paragraphs : List Paragraph := []
  tables : List Table := []
  sections : List Section := []
  bodyElements : List BodyElement := []
  rels : List Relationship := []
  drawingCounter : Int := 0
deriving DecidableEq, Repr

/-- Models `DocumentPart.AddTable` (and thereby `Document.AddTable`, which
delegates to it): no validation of the dimensions happens anywhere on this
path. -/
def DocumentPart.addTable (dp : DocumentPart) (rows cols : Nat) :
    Table × DocumentPart :=
  let table := NewTable rows cols
  (table, { dp with tables := dp.tables ++ [table],
                    bodyElements := dp.bodyElements ++ [BodyElement.tbl table] })


/-! ## XML parsing (parts.go)

The Go code consumes `encoding/xml` decoder tokens.  The embedding works on
an explicit token list: `startEl`/`endEl`/`chardata` mirror
`xml.StartElement`/`xml.EndElement`/`xml.CharData`, with element and
attribute names already reduced to their `Name.Local` component (the part
after the namespace prefix), exactly what every parsing function in
parts.go reads.  Each parser takes a fuel argument and consumes one unit of
fuel per decoder token; running out of tokens and running out of fuel both
produce the error the Go code gets from `decoder.Token()` at end of input
(`io.EOF`), here the string "EOF". -/

structure XmlAttr where
  name : String
  value : String
deriving DecidableEq, Repr

inductive XmlTok where
  | startEl (name : String) (attrs : List XmlAttr)
  | endEl (name : String)
  | chardata (s : String)
deriving DecidableEq, Repr

/-- Models `attrValue` (first attribute whose local name matches wins). -/
def attrValue (attrs : List XmlAttr) (key : String) : String :=
  match attrs.find? (fun a => a.name == key) with
  | some a => a.value
  | none => ""

/-- Models `parseOnOff`.  The Go function returns `*bool` via `boolPtr`,
which is never nil; the model returns the pointee. -/
def parseOnOff (attrs : List XmlAttr) : Bool :=
  let val := goToLower (attrValue attrs "val")
  if val = "" ∨ val = "1" ∨ val = "true" ∨ val = "on" then true
  else if val = "0" ∨ val = "false" ∨ val = "off" then false
  else true

/-- Models `strings.EqualFold` on ASCII input. -/
def goEqualFold (a b : String) : Bool :=
  goToLower a == goToLower b

/-- Models `mapParagraphAlignment`. -/
def mapParagraphAlignment (val : String) : String :=
  let v := goToLower val
  if v = "center" then "center"
  else if v = "right" then "right"
  else if v = "both" ∨ v = "justify" then "both"
  else if v = "distribute" then "distribute"
  else "left"

/-- Models `mapTabAlignment`. -/
def mapTabAlignment (val : String) : String :=
  let v := goToLower val
  if v = "center" then "center"
  else if v = "right" then "right"
  else if v = "decimal" then "decimal"
  else if v = "bar" then "bar"
  else "left"

/-- Models `mapTabLeader`. -/
def mapTabLeader (val : String) : String :=
  let v := goToLower val
  if v = "dot" then "dot"
  else if v = "hyphen" then "hyphen"
  else if v = "underscore" then "underscore"
  else if v = "heavy" then "heavy"
  else if v = "middledot" then "middleDot"
  else "none"

/-- Models `mapBreakType`. -/
def mapBreakType (val : String) : String :=
  let v := goToLower val
  if v = "page" then "page"
  else if v = "column" then "column"
  else "textWrapping"

/-- Models `skipElement` (depth starts at 1; returns the unconsumed
tokens). -/
def skipElement : Nat → List XmlTok → Nat → Except String (List XmlTok)
  | _, evs, 0 => .ok evs
  | 0, _, _ + 1 => .error "EOF"
  | _ + 1, [], _ + 1 => .error "EOF"
  | fuel + 1, t :: rest, depth + 1 =>
    match t with
    | .startEl _ _ => skipElement fuel rest (depth + 2)
    | .endEl _ => skipElement fuel rest depth
    | .chardata _ => skipElement fuel rest (depth + 1)

/-- The token loop of `parseDrawing` (depth starts at 1; accumulates the
picture being built). -/
def parseDrawingLoop : Nat → List XmlTok → Nat → Picture →
    Except String (Picture × List XmlTok)
  | _, evs, 0, pic => .ok (pic, evs)
  | 0, _, _ + 1, _ => .error "EOF"
  | _ + 1, [], _ + 1, _ => .error "EOF"
  | fuel + 1, t :: rest, depth + 1, pic =>
    match t with
    | .startEl name attrs =>
      let pic :=
        if name = "extent" then
          let pic :=
            if attrValue attrs "cx" ≠ "" then
              match goAtoi (attrValue attrs "cx") with
              | some cx => { pic with widthEMU := cx }
              | none => pic
            else pic
          if attrValue attrs "cy" ≠ "" then
            match goAtoi (attrValue attrs "cy") with
            | some cy => { pic with heightEMU := cy }
            | none => pic
          else pic
        else if name = "docPr" then
          let pic :=
            if attrValue attrs "id" ≠ "" then
              match goAtoi (attrValue attrs "id") with
              | some id => { pic with docPrID := id }
              | none => pic
            else pic
          let pic :=
            if attrValue attrs "name" ≠ "" then
              { pic with name := attrValue attrs "name" }
            else pic
          if attrValue attrs "descr" ≠ "" then
            { pic with description := attrValue attrs "descr" }
          else pic
        else if name = "blip" then
          if attrValue attrs "embed" ≠ "" then
            { pic with relID := attrValue attrs "embed" }
          else pic
        else pic
      parseDrawingLoop fuel rest (depth + 2) pic
    | .endEl _ => parseDrawingLoop fuel rest depth pic
    | .chardata _ => parseDrawingLoop fuel rest (depth + 1) pic

/-- Models `parseDrawing`: runs the token loop, then resolves the blip
relationship ID against the owning part (an unresolved ID leaves the
target empty and is not an error) and bumps the drawing counter. -/
def parseDrawing (fuel : Nat) (evs : List XmlTok) (dp : DocumentPart) :
    Except String (Picture × DocumentPart × List XmlTok) :=
  match parseDrawingLoop fuel evs 1 {} with
  | .error e => .error e
  | .ok (pic, rest) =>
    let pic :=
      if pic.relID ≠ "" then
        match relationshipTarget dp.rels pic.relID with
        | some (target, _) => { pic with target := target }
        | none => pic
      else pic
    let dp :=
      if pic.docPrID > dp.drawingCounter then
        { dp with drawingCounter := pic.docPrID }
      else dp
    .ok (pic, dp, rest)


/-- Models `parseParagraphBorders` (the `borders` Go map becomes an
association list written through `mapSet`; `startName` is
`start.Name.Local`). -/
def parseParagraphBorders : Nat → List XmlTok → String →
    List (String × ParagraphBorder) →
    Except String (List (String × ParagraphBorder) × List XmlTok)
  | 0, _, _, _ => .error "EOF"
  | _ + 1, [], _, _ => .error "EOF"
  | fuel + 1, t :: rest, startName, borders =>
    match t with
    | .startEl side attrs =>
      if side ≠ "top" ∧ side ≠ "left" ∧ side ≠ "bottom" ∧ side ≠ "right"
          ∧ side ≠ "between" ∧ side ≠ "bar" then
        match skipElement fuel rest 1 with
        | .ok rest2 => parseParagraphBorders fuel rest2 startName borders
        | .error e => .error e
      else
        let border : ParagraphBorder :=
          { style := attrValue attrs "val", color := attrValue attrs "color" }
        if border.style = "" then
          match skipElement fuel rest 1 with
          | .ok rest2 => parseParagraphBorders fuel rest2 startName borders
          | .error e => .error e
        else
          let border :=
            if attrValue attrs "sz" ≠ "" then
              match goAtoi (attrValue attrs "sz") with
              | some v => { border with size := v }
              | none => border
            else border
          let border :=
            if attrValue attrs "space" ≠ "" then
              match goAtoi (attrValue attrs "space") with
              | some v => { border with space := v }
              | none => border
            else border
          let border :=
            if attrValue attrs "shadow" ≠ "" then
              { border with shadow :=
                  goEqualFold (attrValue attrs "shadow") "1"
                    || goEqualFold (attrValue attrs "shadow") "true" }
            else border
          match skipElement fuel rest 1 with
          | .ok rest2 =>
            parseParagraphBorders fuel rest2 startName
              (mapSet borders side border)
          | .error e => .error e
    | .endEl name =>
      if name = startName then .ok (borders, rest)
      else parseParagraphBorders fuel rest startName borders
    | .chardata _ => parseParagraphBorders fuel rest startName borders

/-- Models `parseParagraphTabs`. -/
def parseParagraphTabs : Nat → List XmlTok → String → List TabStop →
    Except String (List TabStop × List XmlTok)
  | 0, _, _, _ => .error "EOF"
  | _ + 1, [], _, _ => .error "EOF"
  | fuel + 1, t :: rest, startName, stops =>
    match t with
    | .startEl name attrs =>
      if name = "tab" then
        let stop : TabStop :=
          { alignment := mapTabAlignment (attrValue attrs "val"),
            leader := mapTabLeader (attrValue attrs "leader") }
        let stop :=
          if attrValue attrs "pos" ≠ "" then
            match goAtoi (attrValue attrs "pos") with
            | some pos => { stop with position := pos }
            | none => stop
          else stop
        match skipElement fuel rest 1 with
        | .ok rest2 => parseParagraphTabs fuel rest2 startName (stops ++ [stop])
        | .error e => .error e
      else
        match skipElement fuel rest 1 with
        | .ok rest2 => parseParagraphTabs fuel rest2 startName stops
        | .error e => .error e
    | .endEl name =>
      if name = startName then .ok (stops, rest)
      else parseParagraphTabs fuel rest startName stops
    | .chardata _ => parseParagraphTabs fuel rest startName stops

/-- Models `parseParagraphNumbering` (`numID`/`level` with their `Set`
flags become `Option Int`; the function returns only on an `EndElement`
whose local name is literally "numPr"). -/
def parseParagraphNumbering : Nat → List XmlTok → Paragraph →
    Option Int → Option Int → Except String (Paragraph × List XmlTok)
  | 0, _, _, _, _ => .error "EOF"
  | _ + 1, [], _, _, _ => .error "EOF"
  | fuel + 1, t :: rest, paragraph, numID, level =>
    match t with
    | .startEl name attrs =>
      if name = "ilvl" then
        let level :=
          if attrValue attrs "val" ≠ "" then
            match goAtoi (attrValue attrs "val") with
            | some lvl => some lvl
            | none => level
          else level
        match skipElement fuel rest 1 with
        | .ok rest2 => parseParagraphNumbering fuel rest2 paragraph numID level
        | .error e => .error e
      else if name = "numId" then
        let numID :=
          if attrValue attrs "val" ≠ "" then
            match goAtoi (attrValue attrs "val") with
            | some id => some id
            | none => numID
          else numID
        match skipElement fuel rest 1 with
        | .ok rest2 => parseParagraphNumbering fuel rest2 paragraph numID level
        | .error e => .error e
      else
        match skipElement fuel rest 1 with
        | .ok rest2 => parseParagraphNumbering fuel rest2 paragraph numID level
        | .error e => .error e
    | .endEl name =>
      if name = "numPr" then
        match numID with
        | some id =>
          .ok (paragraph.setNumbering id (level.getD 0), rest)
        | none => .ok (paragraph, rest)
      else parseParagraphNumbering fuel rest paragraph numID level
    | .chardata _ => parseParagraphNumbering fuel rest paragraph numID level

/-- Models `parseSectionProperties`.  A `headerReference`/`footerReference`
whose relationship ID does not resolve is a fatal parse error, exactly as
in `headerFromRelationship`/`footerFromRelationship`; for an ID that does
resolve, those functions additionally look the target part up in the
package and load its XML — that loading is not modelled (it is assumed to
succeed) and the reference is recorded as an `HFRef`. -/
def parseSectionProperties : Nat → List XmlTok → String → DocumentPart →
    Section → Except String (Section × List XmlTok)
  | 0, _, _, _, _ => .error "EOF"
  | _ + 1, [], _, _, _ => .error "EOF"
  | fuel + 1, t :: rest, startName, dp, sect =>
    match t with
    | .startEl name attrs =>
      if name = "type" then
        let sect :=
          if attrValue attrs "val" ≠ "" then
            { sect with startType := attrValue attrs "val" }
          else sect
        match skipElement fuel rest 1 with
        | .ok rest2 => parseSectionProperties fuel rest2 startName dp sect
        | .error e => .error e
      else if name = "pgSz" then
        let sect :=
          if attrValue attrs "w" ≠ "" then
            match goAtoi (attrValue attrs "w") with
            | some w => { sect with pageWidth := w }
            | none => sect
          else sect
        let sect :=
          if attrValue attrs "h" ≠ "" then
            match goAtoi (attrValue attrs "h") with
            | some h => { sect with pageHeight := h }
            | none => sect
          else sect
        let sect :=
          if attrValue attrs "orient" ≠ "" then
            { sect with orientation := attrValue attrs "orient" }
          else sect
        match skipElement fuel rest 1 with
        | .ok rest2 => parseSectionProperties fuel rest2 startName dp sect
        | .error e => .error e
      else if name = "pgMar" then
        let sect :=
          if attrValue attrs "top" ≠ "" then
            match goAtoi (attrValue attrs "top") with
            | some v => { sect with marginTop := v }
            | none => sect
          else sect
        let sect :=
          if attrValue attrs "right" ≠ "" then
            match goAtoi (attrValue attrs "right") with
            | some v => { sect with marginRight := v }
            | none => sect
          else sect
        let sect :=
          if attrValue attrs "bottom" ≠ "" then
            match goAtoi (attrValue attrs "bottom") with
            | some v => { sect with marginBottom := v }
            | none => sect
          else sect
        let sect :=
          if attrValue attrs "left" ≠ "" then
            match goAtoi (attrValue attrs "left") with
            | some v => { sect with marginLeft := v }
            | none => sect
          else sect
        match skipElement fuel rest 1 with
        | .ok rest2 => parseSectionProperties fuel rest2 startName dp sect
        | .error e => .error e
      else if name = "headerReference" then
        let typeVal :=
          if attrValue attrs "type" = "" then "default"
          else attrValue attrs "type"
        let relID := attrValue attrs "id"
        if relID ≠ "" then
          match relationshipTarget dp.rels relID with
          | none => .error ("relationship " ++ relID ++ " not found")
          | some _ =>
            let sect :=
              { sect with headerRefs :=
                  sect.headerRefs.filter (fun h => h.refType ≠ typeVal)
                    ++ [{ refType := typeVal, relID := relID }] }
            match skipElement fuel rest 1 with
            | .ok rest2 => parseSectionProperties fuel rest2 startName dp sect
            | .error e => .error e
        else
          match skipElement fuel rest 1 with
          | .ok rest2 => parseSectionProperties fuel rest2 startName dp sect
          | .error e => .error e
      else if name = "footerReference" then
        let typeVal :=
          if attrValue attrs "type" = "" then "default"
          else attrValue attrs "type"
        let relID := attrValue attrs "id"
        if relID ≠ "" then
          match relationshipTarget dp.rels relID with
          | none => .error ("relationship " ++ relID ++ " not found")
          | some _ =>
            let sect :=
              { sect with footerRefs :=
                  sect.footerRefs.filter (fun h => h.refType ≠ typeVal)
                    ++ [{ refType := typeVal, relID := relID }] }
            match skipElement fuel rest 1 with
            | .ok rest2 => parseSectionProperties fuel rest2 startName dp sect
            | .error e => .error e
        else
          match skipElement fuel rest 1 with
          | .ok rest2 => parseSectionProperties fuel rest2 startName dp sect
          | .error e => .error e
      else
        match skipElement fuel rest 1 with
        | .ok rest2 => parseSectionProperties fuel rest2 startName dp sect
        | .error e => .error e
    | .endEl name =>
      if name = startName then .ok (sect, rest)
      else parseSectionProperties fuel rest startName dp sect
    | .chardata _ => parseSectionProperties fuel rest startName dp sect


/-- The local parsing state of `parseParagraph` (the function's local
variables `currentRun`, `textBuffer`, `inText`, `hyperlinkURL`,
`hyperlinkAnchor` together with the paragraph under construction). -/
structure ParaState where
  par : Paragraph
  currentRun : Option Run := none
  textBuf : String := ""
  inText : Bool := false
  hyperURL : String := ""
  hyperAnchor : String := ""
deriving DecidableEq, Repr

/-- Models the `applyHyperlinkContext` closure of `parseParagraph`. -/
def applyHyperlinkContext (st : ParaState) (r : Run) : Run :=
  if st.hyperURL ≠ "" then r.setHyperlink st.hyperURL
  else if st.hyperAnchor ≠ "" then r.setHyperlinkAnchor st.hyperAnchor
  else r

/-- The token loop of `parseParagraph`, one case per `t.Name.Local` arm of
the source switch. -/
def parseParagraphLoop : Nat → List XmlTok → ParaState → DocumentPart →
    Except String (Paragraph × DocumentPart × List XmlTok)
  | 0, _, _, _ => .error "EOF"
  | _ + 1, [], _, _ => .error "EOF"
  | fuel + 1, t :: rest, st, dp =>
    match t with
    | .startEl name attrs =>
      if name = "pPr" ∨ name = "rPr" then
        parseParagraphLoop fuel rest st dp
      else if name = "pStyle" then
        let st :=
          if attrValue attrs "val" ≠ "" then
            { st with par := { st.par with style := attrValue attrs "val" } }
          else st
        parseParagraphLoop fuel rest st dp
      else if name = "jc" then
        let st :=
          if attrValue attrs "val" ≠ "" then
            let par := { st.par with
              alignment := mapParagraphAlignment (attrValue attrs "val") }
            { st with par := par }
          else st
        parseParagraphLoop fuel rest st dp
      else if name = "sectPr" then
        match parseSectionProperties fuel rest "sectPr" dp
            (NewSection "continuous") with
        | .ok (sect, rest2) =>
          parseParagraphLoop fuel rest2
            { st with par := { st.par with sectionBreak := some sect } } dp
        | .error e => .error e
      else if name = "pBdr" then
        match parseParagraphBorders fuel rest "pBdr" [] with
        | .ok (borders, rest2) =>
          let par := borders.foldl
            (fun p sb => p.setBorder sb.1 sb.2) st.par
          parseParagraphLoop fuel rest2 { st with par := par } dp
        | .error e => .error e
      else if name = "spacing" then
        match st.currentRun with
        | some run =>
          let run :=
            if attrValue attrs "val" ≠ "" then
              match goAtoi (attrValue attrs "val") with
              | some v => { run with charSpacing := some v }
              | none => run
            else run
          match skipElement fuel rest 1 with
          | .ok rest2 =>
            parseParagraphLoop fuel rest2 { st with currentRun := some run } dp
          | .error e => .error e
        | none =>
          let par := st.par
          let par :=
            if attrValue attrs "before" ≠ "" then
              match goAtoi (attrValue attrs "before") with
              | some v =>
                { par with spacingBefore := v, spacingBeforeSet := true }
              | none => par
            else par
          let par :=
            if attrValue attrs "after" ≠ "" then
              match goAtoi (attrValue attrs "after") with
              | some v =>
                { par with spacingAfter := v, spacingAfterSet := true }
              | none => par
            else par
          let par :=
            if attrValue attrs "line" ≠ "" then
              match goAtoi (attrValue attrs "line") with
              | some v =>
                { par with spacingLine := v, spacingLineSet := true }
              | none => par
            else par
          let par :=
            if attrValue attrs "lineRule" ≠ "" then
              { par with spacingLineRule := attrValue attrs "lineRule",
                         spacingLineRuleSet := true }
            else par
          match skipElement fuel rest 1 with
          | .ok rest2 => parseParagraphLoop fuel rest2 { st with par := par } dp
          | .error e => .error e
      else if name = "ind" then
        let par := st.par
        let par :=
          if attrValue attrs "left" ≠ "" then
            match goAtoi (attrValue attrs "left") with
            | some v => { par with indentLeft := v, indentLeftSet := true }
            | none => par
          else par
        let par :=
          if attrValue attrs "right" ≠ "" then
            match goAtoi (attrValue attrs "right") with
            | some v => { par with indentRight := v, indentRightSet := true }
            | none => par
          else par
        let par :=
          if attrValue attrs "firstLine" ≠ "" then
            match goAtoi (attrValue attrs "firstLine") with
            | some v =>
              { par with indentFirstLine := v, indentFirstLineSet := true }
            | none => par
          else par
        let par :=
          if attrValue attrs "hanging" ≠ "" then
            match goAtoi (attrValue attrs "hanging") with
            | some v => { par with indentHanging := v, indentHangingSet := true }
            | none => par
          else par
        match skipElement fuel rest 1 with
        | .ok rest2 => parseParagraphLoop fuel rest2 { st with par := par } dp
        | .error e => .error e
      else if name = "numPr" then
        match parseParagraphNumbering fuel rest st.par none none with
        | .ok (par, rest2) =>
          parseParagraphLoop fuel rest2 { st with par := par } dp
        | .error e => .error e
      else if name = "keepNext" then
        let st := { st with par :=
          { st.par with keepWithNext := some (parseOnOff attrs) } }
        match skipElement fuel rest 1 with
        | .ok rest2 => parseParagraphLoop fuel rest2 st dp
        | .error e => .error e
      else if name = "keepLines" then
        let st := { st with par :=
          { st.par with keepLines := some (parseOnOff attrs) } }
        match skipElement fuel rest 1 with
        | .ok rest2 => parseParagraphLoop fuel rest2 st dp
        | .error e => .error e
      else if name = "pageBreakBefore" then
        let st := { st with par :=
          { st.par with pageBreakBefore := some (parseOnOff attrs) } }
        match skipElement fuel rest 1 with
        | .ok rest2 => parseParagraphLoop fuel rest2 st dp
        | .error e => .error e
      else if name = "widowControl" then
        let st := { st with par :=
          { st.par with widowControl := some (parseOnOff attrs) } }
        match skipElement fuel rest 1 with
        | .ok rest2 => parseParagraphLoop fuel rest2 st dp
        | .error e => .error e
      else if name = "tabs" then
        match parseParagraphTabs fuel rest "tabs" [] with
        | .ok (stops, rest2) =>
          let par := stops.foldl
            (fun p stop => p.addTabStop stop.position stop.alignment stop.leader)
            st.par
          parseParagraphLoop fuel rest2 { st with par := par } dp
        | .error e => .error e
      else if name = "hyperlink" then
        let hyperURL := ""
        let hyperAnchor := attrValue attrs "anchor"
        let relID := attrValue attrs "id"
        let (hyperURL, hyperAnchor) :=
          if relID ≠ "" then
            match relationshipTarget dp.rels relID with
            | some (target, mode) =>
              if goEqualFold mode "External" then (target, hyperAnchor)
              else if hyperAnchor = "" then (hyperURL, target)
              else (hyperURL, hyperAnchor)
            | none => (hyperURL, hyperAnchor)
          else (hyperURL, hyperAnchor)
        parseParagraphLoop fuel rest
          { st with hyperURL := hyperURL, hyperAnchor := hyperAnchor } dp
      else if name = "r" then
        parseParagraphLoop fuel rest
          { st with currentRun := some (applyHyperlinkContext st (NewRun "")) }
          dp
      else if name = "t" then
        parseParagraphLoop fuel rest { st with textBuf := "", inText := true } dp
      else if name = "b" then
        let st :=
          match st.currentRun with
          | some run => { st with currentRun := some { run with bold := true } }
          | none => st
        parseParagraphLoop fuel rest st dp
      else if name = "i" then
        let st :=
          match st.currentRun with
          | some run => { st with currentRun := some { run with italic := true } }
          | none => st
        parseParagraphLoop fuel rest st dp
      else if name = "strike" then
        let st :=
          match st.currentRun with
          | some run => { st with currentRun := some { run with strike := true } }
          | none => st
        match skipElement fuel rest 1 with
        | .ok rest2 => parseParagraphLoop fuel rest2 st dp
        | .error e => .error e
      else if name = "dstrike" then
        let st :=
          match st.currentRun with
          | some run =>
            { st with currentRun := some { run with doubleStrike := true } }
          | none => st
        match skipElement fuel rest 1 with
        | .ok rest2 => parseParagraphLoop fuel rest2 st dp
        | .error e => .error e
      else if name = "smallCaps" then
        let st :=
          match st.currentRun with
          | some run =>
            { st with currentRun := some { run with smallCaps := true } }
          | none => st
        match skipElement fuel rest 1 with
        | .ok rest2 => parseParagraphLoop fuel rest2 st dp
        | .error e => .error e
      else if name = "caps" then
        let st :=
          match st.currentRun with
          | some run =>
            { st with currentRun := some { run with allCaps := true } }
          | none => st
        match skipElement fuel rest 1 with
        | .ok rest2 => parseParagraphLoop fuel rest2 st dp
        | .error e => .error e
      else if name = "shadow" then
        let st :=
          match st.currentRun with
          | some run => { st with currentRun := some { run with shadow := true } }
          | none => st
        match skipElement fuel rest 1 with
        | .ok rest2 => parseParagraphLoop fuel rest2 st dp
        | .error e => .error e
      else if name = "outline" then
        let st :=
          match st.currentRun with
          | some run =>
            { st with currentRun := some { run with outline := true } }
          | none => st
        match skipElement fuel rest 1 with
        | .ok rest2 => parseParagraphLoop fuel rest2 st dp
        | .error e => .error e
      else if name = "emboss" then
        let st :=
          match st.currentRun with
          | some run => { st with currentRun := some { run with emboss := true } }
          | none => st
        match skipElement fuel rest 1 with
        | .ok rest2 => parseParagraphLoop fuel rest2 st dp
        | .error e => .error e
      else if name = "imprint" then
        let st :=
          match st.currentRun with
          | some run =>
            { st with currentRun := some { run with imprint := true } }
          | none => st
        match skipElement fuel rest 1 with
        | .ok rest2 => parseParagraphLoop fuel rest2 st dp
        | .error e => .error e
      else if name = "u" then
        let st :=
          match st.currentRun with
          | some run =>
            let underline :=
              if attrValue attrs "val" = "" then "single"
              else attrValue attrs "val"
            { st with currentRun := some { run with underline := underline } }
          | none => st
        parseParagraphLoop fuel rest st dp
      else if name = "color" then
        let st :=
          match st.currentRun with
          | some run =>
            if attrValue attrs "val" ≠ "" then
              let run := { run with color := attrValue attrs "val" }
              { st with currentRun := some run }
            else st
          | none => st
        parseParagraphLoop fuel rest st dp
      else if name = "rFonts" then
        let st :=
          match st.currentRun with
          | some run =>
            let font :=
              if attrValue attrs "ascii" = "" then attrValue attrs "hAnsi"
              else attrValue attrs "ascii"
            if font ≠ "" then
              { st with currentRun := some { run with font := font } }
            else st
          | none => st
        parseParagraphLoop fuel rest st dp
      else if name = "sz" then
        let st :=
          match st.currentRun with
          | some run =>
            if attrValue attrs "val" ≠ "" then
              match goAtoi (attrValue attrs "val") with
              | some sz => { st with currentRun := some { run with size := sz } }
              | none => st
            else st
          | none => st
        match skipElement fuel rest 1 with
        | .ok rest2 => parseParagraphLoop fuel rest2 st dp
        | .error e => .error e
      else if name = "szCs" then
        match skipElement fuel rest 1 with
        | .ok rest2 => parseParagraphLoop fuel rest2 st dp
        | .error e => .error e
      else if name = "highlight" then
        let st :=
          match st.currentRun with
          | some run =>
            if attrValue attrs "val" ≠ "" then
              let run := { run with highlight := attrValue attrs "val" }
              { st with currentRun := some run }
            else st
          | none => st
        parseParagraphLoop fuel rest st dp
      else if name = "shd" then
        let st :=
          match st.currentRun with
          | some _ => st
          | none =>
            let sh : ParagraphShading :=
              { pattern := attrValue attrs "val",
                fill := attrValue attrs "fill",
                color := attrValue attrs "color" }
            let par := { st.par with shading := some sh }
            { st with par := par }
        match skipElement fuel rest 1 with
        | .ok rest2 => parseParagraphLoop fuel rest2 st dp
        | .error e => .error e
      else if name = "kern" then
        let st :=
          match st.currentRun with
          | some run =>
            if attrValue attrs "val" ≠ "" then
              match goAtoi (attrValue attrs "val") with
              | some v =>
                { st with currentRun := some { run with kern := some v } }
              | none => st
            else st
          | none => st
        match skipElement fuel rest 1 with
        | .ok rest2 => parseParagraphLoop fuel rest2 st dp
        | .error e => .error e
      else if name = "position" then
        let st :=
          match st.currentRun with
          | some run =>
            if attrValue attrs "val" ≠ "" then
              match goAtoi (attrValue attrs "val") with
              | some v =>
                let run := { run with baselineShift := some v }
                { st with currentRun := some run }
              | none => st
            else st
          | none => st
        match skipElement fuel rest 1 with
        | .ok rest2 => parseParagraphLoop fuel rest2 st dp
        | .error e => .error e
      else if name = "br" then
        let run :=
          match st.currentRun with
          | some run => run
          | none => applyHyperlinkContext st (NewRun "")
        let run := run.addBreak (mapBreakType (attrValue attrs "type"))
        parseParagraphLoop fuel rest { st with currentRun := some run } dp
      else if name = "drawing" then
        let run :=
          match st.currentRun with
          | some run => run
          | none => applyHyperlinkContext st (NewRun "")
        match parseDrawing fuel rest dp with
        | .ok (pic, dp, rest2) =>
          parseParagraphLoop fuel rest2
            { st with currentRun := some { run with picture := some pic } } dp
        | .error e => .error e
      else
        match skipElement fuel rest 1 with
        | .ok rest2 => parseParagraphLoop fuel rest2 st dp
        | .error e => .error e
    | .chardata sdata =>
      let st :=
        if st.inText ∧ st.currentRun.isSome then
          { st with textBuf := st.textBuf ++ sdata }
        else st
      parseParagraphLoop fuel rest st dp
    | .endEl name =>
      if name = "t" then
        let st :=
          match st.currentRun with
          | some run =>
            let run := { run with text := run.text ++ st.textBuf }
            { st with currentRun := some run }
          | none => st
        parseParagraphLoop fuel rest { st with inText := false } dp
      else if name = "r" then
        let st :=
          match st.currentRun with
          | some run => { st with par :=
              { st.par with runs := st.par.runs ++ [run] } }
          | none => st
        parseParagraphLoop fuel rest { st with currentRun := none } dp
      else if name = "hyperlink" then
        parseParagraphLoop fuel rest
          { st with hyperURL := "", hyperAnchor := "" } dp
      else if name = "p" then
        .ok (st.par, dp, rest)
      else
        parseParagraphLoop fuel rest st dp

/-- Models `parseParagraph`: starts from `NewParagraph` with empty local
state and runs the token loop. -/
def parseParagraph (fuel : Nat) (evs : List XmlTok) (dp : DocumentPart) :
    Except String (Paragraph × DocumentPart × List XmlTok) :=
  parseParagraphLoop fuel evs { par := NewParagraph } dp


/-- Models `TableCell.SetBorder`. -/
def TableCell.setBorder (tc : TableCell) (side : String)
    (border : TableBorder) : TableCell :=
  if side = "" then tc
  else if border.style = "" then { tc with borders := mapDel tc.borders side }
  else { tc with borders := mapSet tc.borders side border }

/-- Models `TableCell.SetShading`. -/
def TableCell.setShading (tc : TableCell) (pattern fill color : String) :
    TableCell :=
  { tc with shading := some { pattern := pattern, fill := fill, color := color } }

/-- Models `parseBorderAttributes` (one pass over the attribute list,
later attributes of the same name overwriting earlier ones). -/
def parseBorderAttributes (attrs : List XmlAttr) : TableBorder :=
  attrs.foldl (fun border attr =>
    if attr.name = "val" then { border with style := attr.value }
    else if attr.name = "color" then { border with color := attr.value }
    else if attr.name = "sz" then
      match goAtoi attr.value with
      | some v => { border with size := v }
      | none => border
    else if attr.name = "space" then
      match goAtoi attr.value with
      | some v => { border with space := v }
      | none => border
    else border) {}

/-- Models `parseTableBorders`. -/
def parseTableBorders : Nat → List XmlTok → String →
    List (String × TableBorder) →
    Except String (List (String × TableBorder) × List XmlTok)
  | 0, _, _, _ => .error "EOF"
  | _ + 1, [], _, _ => .error "EOF"
  | fuel + 1, t :: rest, startName, borders =>
    match t with
    | .startEl name attrs =>
      let border := parseBorderAttributes attrs
      let borders :=
        if border.style ≠ "" then mapSet borders name border else borders
      match skipElement fuel rest 1 with
      | .ok rest2 => parseTableBorders fuel rest2 startName borders
      | .error e => .error e
    | .endEl name =>
      if name = startName then .ok (borders, rest)
      else parseTableBorders fuel rest startName borders
    | .chardata _ => parseTableBorders fuel rest startName borders

/-- Models `parseTableCellProperties`. -/
def parseTableCellProperties : Nat → List XmlTok → String → TableCell →
    Except String (TableCell × List XmlTok)
  | 0, _, _, _ => .error "EOF"
  | _ + 1, [], _, _ => .error "EOF"
  | fuel + 1, t :: rest, startName, cell =>
    match t with
    | .startEl name attrs =>
      if name = "tcW" then
        let cell :=
          if attrValue attrs "w" ≠ "" then
            match goAtoi (attrValue attrs "w") with
            | some w => { cell with width := w }
            | none => cell
          else cell
        match skipElement fuel rest 1 with
        | .ok rest2 => parseTableCellProperties fuel rest2 startName cell
        | .error e => .error e
      else if name = "gridSpan" then
        let cell :=
          if attrValue attrs "val" ≠ "" then
            match goAtoi (attrValue attrs "val") with
            | some span => { cell with gridSpan := span }
            | none => cell
          else cell
        match skipElement fuel rest 1 with
        | .ok rest2 => parseTableCellProperties fuel rest2 startName cell
        | .error e => .error e
      else if name = "vMerge" then
        let state := attrValue attrs "val"
        let cell :=
          if state = "restart" then { cell with verticalMerge := "restart" }
          else if state = "continue" then
            { cell with verticalMerge := "continue" }
          else if state = "" then { cell with verticalMerge := "continue" }
          else cell
        match skipElement fuel rest 1 with
        | .ok rest2 => parseTableCellProperties fuel rest2 startName cell
        | .error e => .error e
      else if name = "vAlign" then
        let val := attrValue attrs "val"
        let cell :=
          if val = "center" then { cell with verticalAlign := "center" }
          else if val = "bottom" then { cell with verticalAlign := "bottom" }
          else { cell with verticalAlign := "top" }
        match skipElement fuel rest 1 with
        | .ok rest2 => parseTableCellProperties fuel rest2 startName cell
        | .error e => .error e
      else if name = "tcBorders" then
        match parseTableBorders fuel rest "tcBorders" [] with
        | .ok (borders, rest2) =>
          let cell := borders.foldl
            (fun c sb => c.setBorder sb.1 sb.2) cell
          parseTableCellProperties fuel rest2 startName cell
        | .error e => .error e
      else if name = "shd" then
        let cell := cell.setShading (attrValue attrs "val")
          (attrValue attrs "fill") (attrValue attrs "color")
        match skipElement fuel rest 1 with
        | .ok rest2 => parseTableCellProperties fuel rest2 startName cell
        | .error e => .error e
      else
        match skipElement fuel rest 1 with
        | .ok rest2 => parseTableCellProperties fuel rest2 startName cell
        | .error e => .error e
    | .endEl name =>
      if name = startName then .ok (cell, rest)
      else parseTableCellProperties fuel rest startName cell
    | .chardata _ => parseTableCellProperties fuel rest startName cell

/-- The token loop of `parseTableCell` (the cell starts with
`paragraphs = []`, `width = 1440`, and the end tag checks
`start.Name.Local`, here `startName`). -/
def parseTableCellLoop : Nat → List XmlTok → String → TableCell →
    DocumentPart → Except String (TableCell × DocumentPart × List XmlTok)
  | 0, _, _, _, _ => .error "EOF"
  | _ + 1, [], _, _, _ => .error "EOF"
  | fuel + 1, t :: rest, startName, cell, dp =>
    match t with
    | .startEl name _ =>
      if name = "tcPr" then
        match parseTableCellProperties fuel rest "tcPr" cell with
        | .ok (cell, rest2) => parseTableCellLoop fuel rest2 startName cell dp
        | .error e => .error e
      else if name = "p" then
        match parseParagraph fuel rest dp with
        | .ok (paragraph, dp, rest2) =>
          parseTableCellLoop fuel rest2 startName
            { cell with paragraphs := cell.paragraphs ++ [paragraph] } dp
        | .error e => .error e
      else if name = "tbl" then
        match skipElement fuel rest 1 with
        | .ok rest2 => parseTableCellLoop fuel rest2 startName cell dp
        | .error e => .error e
      else
        match skipElement fuel rest 1 with
        | .ok rest2 => parseTableCellLoop fuel rest2 startName cell dp
        | .error e => .error e
    | .endEl name =>
      if name = startName then
        let cell :=
          if cell.paragraphs = [] then
            { cell with paragraphs := [NewParagraph] }
          else cell
        .ok (cell, dp, rest)
      else parseTableCellLoop fuel rest startName cell dp
    | .chardata _ => parseTableCellLoop fuel rest startName cell dp

/-- Models `parseTableCell`: the loop starts from an empty cell with the
default 1440 width, and an empty cell is given exactly one synthesized
default paragraph before being returned. -/
def parseTableCell (fuel : Nat) (evs : List XmlTok) (startName : String)
    (dp : DocumentPart) : Except String (TableCell × DocumentPart × List XmlTok) :=
  parseTableCellLoop fuel evs startName { width := 1440 } dp


/-! ## Serialization (Run.ToXML and friends) -/

/-- Models `escapeXML` (a `strings.NewReplacer` over five single-character
patterns performs one simultaneous left-to-right pass, i.e. a per-character
substitution). -/
def escapeXML (value : String) : String :=
  String.mk (value.data.flatMap (fun c =>
    if c = '&' then "&amp;".data
    else if c = '<' then "&lt;".data
    else if c = '>' then "&gt;".data
    else if c = '"' then "&quot;".data
    else if c = Char.ofNat 39 then "&apos;".data
    else [c]))

/-- Models `strings.ReplaceAll` for a single-character pattern. -/
def goReplaceAllChar (pat : Char) (rep : String) (s : String) : String :=
  String.mk (s.data.flatMap (fun c => if c = pat then rep.data else [c]))

/-- The three sequential `strings.ReplaceAll` calls of `Run.ToXML` on the
run text. -/
def xmlEscapeText (s : String) : String :=
  goReplaceAllChar '>' "&gt;"
    (goReplaceAllChar '<' "&lt;" (goReplaceAllChar '&' "&amp;" s))

/-- Models `Picture.toXML` (nil receiver excluded: the model has no nil
pictures, `Run.picture = none` simply emits nothing). -/
def Picture.toXML (p : Picture) : String :=
  let name := if p.name = "" then "Picture " ++ intRepr p.docPrID else p.name
  let descr := p.description
  "<w:drawing>"
  ++ "<wp:inline xmlns:wp=\"http://schemas.openxmlformats.org/drawingml/2006/wordprocessingDrawing\" xmlns:a=\"http://schemas.openxmlformats.org/drawingml/2006/main\" xmlns:pic=\"http://schemas.openxmlformats.org/drawingml/2006/picture\" xmlns:r=\"http://schemas.openxmlformats.org/officeDocument/2006/relationships\" distT=\"0\" distB=\"0\" distL=\"0\" distR=\"0\">"
  ++ "<wp:extent cx=\"" ++ intRepr p.widthEMU ++ "\" cy=\""
    ++ intRepr p.heightEMU ++ "\"/>"
  ++ "<wp:docPr id=\"" ++ intRepr p.docPrID ++ "\" name=\"" ++ escapeXML name
    ++ "\" descr=\"" ++ escapeXML descr ++ "\"/>"
  ++ "<wp:cNvGraphicFramePr><a:graphicFrameLocks noChangeAspect=\"1\"/></wp:cNvGraphicFramePr>"
  ++ "<a:graphic>"
  ++ "<a:graphicData uri=\"http://schemas.openxmlformats.org/drawingml/2006/picture\">"
  ++ "<pic:pic>"
  ++ "<pic:nvPicPr><pic:cNvPr id=\"0\" name=\"\"/><pic:cNvPicPr/></pic:nvPicPr>"
  ++ "<pic:blipFill><a:blip r:embed=\"" ++ escapeXML p.relID
    ++ "\"/><a:stretch><a:fillRect/></a:stretch></pic:blipFill>"
  ++ "<pic:spPr><a:xfrm><a:off x=\"0\" y=\"0\"/><a:ext cx=\""
  ++ intRepr p.widthEMU
  ++ "\" cy=\""
  ++ intRepr p.heightEMU
  ++ "\"/></a:xfrm><a:prstGeom prst=\"rect\"><a:avLst/></a:prstGeom></pic:spPr>"
  ++ "</pic:pic>"
  ++ "</a:graphicData>"
  ++ "</a:graphic>"
  ++ "</wp:inline>"
  ++ "</w:drawing>"

/-- The `rPr` string builder of `Run.ToXML`, condition for condition in
source order. -/
def Run.rPrContent (r : Run) : String :=
  (if r.bold then "<w:b/>" else "")
  ++ (if r.italic then "<w:i/>" else "")
  ++ (if r.strike then "<w:strike/>" else "")
  ++ (if r.doubleStrike then "<w:dstrike/>" else "")
  ++ (if r.smallCaps then "<w:smallCaps/>" else "")
  ++ (if r.allCaps then "<w:caps/>" else "")
  ++ (if r.shadow then "<w:shadow/>" else "")
  ++ (if r.outline then "<w:outline/>" else "")
  ++ (if r.emboss then "<w:emboss/>" else "")
  ++ (if r.imprint then "<w:imprint/>" else "")
  ++ (if r.underline ≠ "none" then
        "<w:u w:val=\"" ++ r.underline ++ "\"/>"
      else "")
  ++ (if r.size ≠ 22 then
        "<w:sz w:val=\"" ++ intRepr r.size ++ "\"/>"
          ++ "<w:szCs w:val=\"" ++ intRepr r.size ++ "\"/>"
      else "")
  ++ (if r.color ≠ "auto" then
        "<w:color w:val=\"" ++ r.color ++ "\"/>"
      else "")
  ++ (if r.font ≠ "Calibri" then
        "<w:rFonts w:ascii=\"" ++ r.font ++ "\" w:hAnsi=\"" ++ r.font ++ "\"/>"
      else "")
  ++ (if r.highlight ≠ "auto" then
        "<w:highlight w:val=\"" ++ r.highlight ++ "\"/>"
      else "")
  ++ (match r.charSpacing with
      | some v => "<w:spacing w:val=\"" ++ intRepr v ++ "\"/>"
      | none => "")
  ++ (match r.kern with
      | some v => "<w:kern w:val=\"" ++ intRepr v ++ "\"/>"
      | none => "")
  ++ (match r.baselineShift with
      | some v => "<w:position w:val=\"" ++ intRepr v ++ "\"/>"
      | none => "")

/-- The run-properties block: wrapped in `<w:rPr>` only when the builder
is nonempty (`rPr.Len() > 0`). -/
def Run.rPrXML (r : Run) : String :=
  if r.rPrContent.length > 0 then
    "<w:rPr>" ++ r.rPrContent ++ "</w:rPr>"
  else ""

/-- The content string builder of `Run.ToXML`: escaped text, picture,
break, and the `<w:t/>` placeholder when everything is empty. -/
def Run.contentXML (r : Run) : String :=
  let content :=
    (if r.text ≠ "" then "<w:t>" ++ xmlEscapeText r.text ++ "</w:t>" else "")
    ++ (match r.picture with
        | some pic => pic.toXML
        | none => "")
    ++ (if r.hasBreak then
          if r.breakType = "page" then "<w:br w:type=\"page\"/>"
          else if r.breakType = "column" then "<w:br w:type=\"column\"/>"
          else "<w:br/>"
        else "")
  if content.length = 0 then "<w:t/>" else content

/-- Models `Run.wrapWithHyperlink`; `relID` stands for the value
`ensureHyperlinkRelationship` returned for the owner (that call mutates
package state and is modelled by `ensureRelationshipWithMode`). -/
def Run.wrapWithHyperlink (r : Run) (relID : String) (runXML : String) :
    String :=
  let attrs : List String :=
    (if r.hyperlinkURL ≠ "" ∧ relID ≠ "" then
      ["r:id=\"" ++ relID ++ "\""] else [])
    ++ (if r.hyperlinkAnchor ≠ "" then
      ["w:anchor=\"" ++ r.hyperlinkAnchor ++ "\""] else [])
  let attrStr :=
    if attrs.length > 0 then " " ++ String.intercalate " " attrs else ""
  "<w:hyperlink" ++ attrStr ++ ">" ++ runXML ++ "</w:hyperlink>"

/-- Models `Run.ToXML`; `hyperRelID` is the relationship ID the owner
would allocate for an external hyperlink (unused unless the run has
one). -/
def Run.toXML (r : Run) (hyperRelID : String) : String :=
  let runXML := "<w:r>" ++ r.rPrXML ++ r.contentXML ++ "</w:r>"
  if r.hasHyperlink then r.wrapWithHyperlink hyperRelID runXML else runXML

/-! ## An XML lexer for the emitted sublanguage

`encoding/xml` is Go standard library, not repository code; re-parsing a
serialized document feeds its token stream into the functions above.  The
following lexer models the decoder on the XML sublanguage this library
emits: tags with double-quoted attribute values, self-closing tags
(yielding a start token followed by an end token, as `encoding/xml`
does), character data with the named entities the serializer produces,
and namespace prefixes stripped down to `Name.Local`. -/

/-- `Name.Local`: the part of a qualified name after the first colon. -/
def dropNsPrefix (s : List Char) : List Char :=
  if s.contains ':' then (s.dropWhile (fun c => c ≠ ':')).drop 1 else s

/-- Splits a character list at the first character satisfying `stop`. -/
def takeUntil (stop : Char → Bool) : List Char → (List Char × List Char)
  | [] => ([], [])
  | c :: rest =>
    if stop c then ([], c :: rest)
    else
      let r := takeUntil stop rest
      (c :: r.1, r.2)

/-- The named character entities the serializer can emit. -/
def entityVal (name : String) : Option String :=
  if name = "amp" then some "&"
  else if name = "lt" then some "<"
  else if name = "gt" then some ">"
  else if name = "quot" then some "\""
  else if name = "apos" then some (String.mk [Char.ofNat 39])
  else none

/-- Lexes the attribute list of a start tag; returns the attributes, the
self-closing flag, and the characters after the closing bracket. -/
def lexAttrs : Nat → List Char → Except String (List XmlAttr × Bool × List Char)
  | 0, _ => .error "XML syntax error"
  | fuel + 1, cs =>
    let cs := cs.dropWhile (fun c => c = ' ')
    match cs with
    | [] => .error "XML syntax error"
    | '>' :: rest => .ok ([], false, rest)
    | '/' :: '>' :: rest => .ok ([], true, rest)
    | _ =>
      let p := takeUntil (fun c => c = '=' ∨ c = ' ' ∨ c = '>' ∨ c = '/') cs
      match p.2 with
      | '=' :: '"' :: cs2 =>
        let q := takeUntil (fun c => c = '"') cs2
        match q.2 with
        | '"' :: cs4 =>
          match lexAttrs fuel cs4 with
          | .ok (attrs, sc, rest) =>
            .ok ({ name := String.mk (dropNsPrefix p.1),
                   value := String.mk q.1 } :: attrs, sc, rest)
          | .error e => .error e
        | _ => .error "XML syntax error"
      | _ => .error "XML syntax error"

/-- The main lexer loop: `acc` is the pending character data, `toks` the
tokens produced so far. -/
def lexXml : Nat → List Char → String → List XmlTok →
    Except String (List XmlTok)
  | _, [], acc, toks =>
    .ok (toks ++ (if acc = "" then [] else [XmlTok.chardata acc]))
  | 0, _ :: _, _, _ => .error "XML syntax error"
  | fuel + 1, c :: cs, acc, toks =>
    if c = '<' then
      let toks := toks ++ (if acc = "" then [] else [XmlTok.chardata acc])
      match cs with
      | '/' :: cs1 =>
        let p := takeUntil (fun c => c = '>') cs1
        match p.2 with
        | '>' :: cs3 =>
          lexXml fuel cs3 ""
            (toks ++ [XmlTok.endEl (String.mk (dropNsPrefix p.1))])
        | _ => .error "XML syntax error"
      | _ =>
        let p := takeUntil (fun c => c = ' ' ∨ c = '/' ∨ c = '>') cs
        match lexAttrs (fuel + 1) p.2 with
        | .ok (attrs, sc, rest) =>
          let nm := String.mk (dropNsPrefix p.1)
          lexXml fuel rest ""
            (toks ++ [XmlTok.startEl nm attrs]
              ++ (if sc then [XmlTok.endEl nm] else []))
        | .error e => .error e
    else if c = '&' then
      let p := takeUntil (fun c => c = ';') cs
      match p.2 with
      | ';' :: cs2 =>
        match entityVal (String.mk p.1) with
        | some v => lexXml fuel cs2 (acc ++ v) toks
        | none => .error "XML syntax error"
      | _ => .error "XML syntax error"
    else lexXml fuel cs (acc.push c) toks

def tokenizeXml (s : String) : Except String (List XmlTok) :=
  lexXml s.length s.data "" []


/-- Per-character form of the serializer's text escaping (proved equal to
the three sequential replacements of `xmlEscapeText`). -/
def escTextChar (c : Char) : List Char :=
  if c = '&' then "&amp;".data
  else if c = '<' then "&lt;".data
  else if c = '>' then "&gt;".data
  else [c]

/-- The XML a default-formatting, hyperlink-free run serializes to. -/
def runXmlStr (text : String) : String :=
  "<w:r>"
  ++ (if text = "" then "<w:t/>"
      else "<w:t>" ++ xmlEscapeText text ++ "</w:t>")
  ++ "</w:r>"

/-- The decoder tokens of `runXmlStr text` (a self-closing `<w:t/>` gives
the same start/end pair as an explicit empty element). -/
def runToks (text : String) : List XmlTok :=
  [XmlTok.startEl "r" [], XmlTok.startEl "t" []]
  ++ (if text = "" then [] else [XmlTok.chardata text])
  ++ [XmlTok.endEl "t", XmlTok.endEl "r"]

/-! ### Decimal-printing facts used for relationship-ID freshness -/

theorem digitCh_isDigit {d : Nat} (h : d < 10) : (digitCh d).isDigit = true := by
  interval_cases d <;> decide

theorem digitCh_toNat {d : Nat} (h : d < 10) : (digitCh d).toNat = 48 + d := by
  interval_cases d <;> decide

theorem digitsVal_append (xs ys : List Char) (acc : Nat) :
    digitsVal (xs ++ ys) acc =
      match digitsVal xs acc with
      | some m => digitsVal ys m
      | none => none := by
  induction xs generalizing acc with
  | nil => simp [digitsVal]
  | cons c rest ih =>
      simp only [List.cons_append, digitsVal]
      by_cases hc : c.isDigit
      · simp [hc, ih]
      · simp [hc]

theorem natDigitsAux_congr :
    ∀ (n f1 f2 : Nat), n < f1 → n < f2 →
      natDigitsAux f1 n = natDigitsAux f2 n := by
  intro n
  induction n using Nat.strong_induction_on with
  | _ n ih =>
    intro f1 f2 h1 h2
    obtain ⟨g1, rfl⟩ : ∃ g, f1 = g + 1 := ⟨f1 - 1, by omega⟩
    obtain ⟨g2, rfl⟩ : ∃ g, f2 = g + 1 := ⟨f2 - 1, by omega⟩
    simp only [natDigitsAux]
    by_cases h : n < 10
    · rw [if_pos h, if_pos h]
    · rw [if_neg h, if_neg h]
      have hdiv : n / 10 < n := Nat.div_lt_self (by omega) (by omega)
      rw [ih (n / 10) hdiv g1 g2 (by omega) (by omega)]

/-- The recursion equation of the digit expansion, with the fuel
discharged. -/
theorem natDigits_eq (n : Nat) :
    natDigits n =
      if n < 10 then [digitCh n]
      else natDigits (n / 10) ++ [digitCh (n % 10)] := by
  show natDigitsAux (n + 1) n = _
  rw [natDigitsAux]
  by_cases h : n < 10
  · rw [if_pos h, if_pos h]
  · rw [if_neg h, if_neg h]
    have hdiv : n / 10 < n := Nat.div_lt_self (by omega) (by omega)
    rw [natDigitsAux_congr (n / 10) n (n / 10 + 1) hdiv (by omega)]
    rfl

theorem digitsVal_natDigits (n : Nat) :
    ∀ acc, digitsVal (natDigits n) acc =
      some (acc * 10 ^ (natDigits n).length + n) := by
  induction n using Nat.strong_induction_on with
  | _ n ih =>
      intro acc
      by_cases h : n < 10
      · rw [natDigits_eq, if_pos h]
        simp only [digitsVal, digitCh_isDigit h, if_pos,
          digitCh_toNat h, List.length_singleton]
        congr 1
        omega
      · rw [natDigits_eq, if_neg h]
        rw [digitsVal_append]
        have hdiv : n / 10 < n := Nat.div_lt_self (by omega) (by omega)
        rw [ih (n / 10) hdiv acc]
        have hm : n % 10 < 10 := Nat.mod_lt _ (by omega)
        simp only [digitsVal, digitCh_isDigit hm, if_pos, digitCh_toNat hm,
          List.length_append, List.length_singleton]
        congr 1
        have h48 : 48 + n % 10 - 48 = n % 10 := by omega
        rw [h48, pow_succ]
        have hnd : n = 10 * (n / 10) + n % 10 := by omega
        generalize (10:ℕ) ^ (natDigits (n / 10)).length = x
        ring_nf
        omega

theorem natDigits_head (n : Nat) :
    ∃ d tail, d < 10 ∧ natDigits n = digitCh d :: tail := by
  induction n using Nat.strong_induction_on with
  | _ n ih =>
      by_cases h : n < 10
      · exact ⟨n, [], h, by rw [natDigits_eq]; simp [h]⟩
      · obtain ⟨d, tail, hd, heq⟩ :=
          ih (n / 10) (Nat.div_lt_self (by omega) (by omega))
        refine ⟨d, tail ++ [digitCh (n % 10)], hd, ?_⟩
        rw [natDigits_eq]
        simp [h, heq]

theorem goAtoiUnchecked_natDigits (n : Nat) :
    goAtoiUnchecked (natDigits n) = some (Int.ofNat n) := by
  obtain ⟨d, tail, hd, heq⟩ := natDigits_head n
  have hplus : digitCh d ≠ '+' := by
    intro hc
    have h1 := digitCh_toNat hd
    rw [hc] at h1
    have h2 : ('+').toNat = 43 := by decide
    omega
  have hminus : digitCh d ≠ '-' := by
    intro hc
    have h1 := digitCh_toNat hd
    rw [hc] at h1
    have h2 : ('-').toNat = 45 := by decide
    omega
  rw [heq]
  simp only [goAtoiUnchecked, if_neg hplus, if_neg hminus]
  rw [← heq, digitsVal_natDigits n 0]
  simp

theorem goAtoiChars_natDigits (n : Nat)
    (h : (n : Int) ≤ 9223372036854775807) :
    goAtoiChars (natDigits n) = some (Int.ofNat n) := by
  unfold goAtoiChars
  rw [goAtoiUnchecked_natDigits]
  have hc : ¬ (Int.ofNat n < -9223372036854775808
      ∨ 9223372036854775807 < Int.ofNat n) := by
    simp only [Int.ofNat_eq_natCast]
    omega
  show (if Int.ofNat n < -9223372036854775808
      ∨ 9223372036854775807 < Int.ofNat n then none
    else some (Int.ofNat n)) = some (Int.ofNat n)
  rw [if_neg hc]

/-- A value the range-checked `Atoi` model accepts lies in the 64-bit
range. -/
theorem goAtoiChars_range {cs : List Char} {v : Int}
    (h : goAtoiChars cs = some v) :
    -9223372036854775808 ≤ v ∧ v ≤ 9223372036854775807 := by
  unfold goAtoiChars at h
  split at h
  · split_ifs at h with hc
    injection h with h1
    subst h1
    omega
  · exact Option.noConfusion h

theorem relIdSuffix_range {id : String} {n : Int}
    (h : relIdSuffix id = some n) :
    -9223372036854775808 ≤ n ∧ n ≤ 9223372036854775807 := by
  unfold relIdSuffix at h
  split at h
  · split_ifs at h
    exact goAtoiChars_range h
  · exact Option.noConfusion h

theorem maxRelId_nonneg (rels : List Relationship) : 0 ≤ maxRelId rels := by
  unfold maxRelId
  suffices h : ∀ (m : Int), 0 ≤ m → 0 ≤ rels.foldl
      (fun m r =>
        match relIdSuffix r.id with
        | some n => if n > m then n else m
        | none => m) m from h 0 le_rfl
  induction rels with
  | nil => intro m hm; simpa using hm
  | cons r rest ih =>
      intro m hm
      simp only [List.foldl_cons]
      apply ih
      cases hsuf : relIdSuffix r.id with
      | none => simpa using hm
      | some n =>
          simp only
          split <;> omega

/-- `maxID` never leaves the 64-bit range: it starts at 0 and every parsed
suffix is in range. -/
theorem maxRelId_le_int64Max (rels : List Relationship) :
    maxRelId rels ≤ 9223372036854775807 := by
  unfold maxRelId
  suffices h : ∀ (m : Int), m ≤ 9223372036854775807 →
      rels.foldl
        (fun m r =>
          match relIdSuffix r.id with
          | some n => if n > m then n else m
          | none => m) m ≤ 9223372036854775807 from h 0 (by omega)
  induction rels with
  | nil => intro m hm; simpa using hm
  | cons r rest ih =>
      intro m hm
      simp only [List.foldl_cons]
      apply ih
      cases hsuf : relIdSuffix r.id with
      | none => simpa using hm
      | some n =>
          have hr := (relIdSuffix_range hsuf).2
          simp only
          split <;> omega

theorem relIdSuffix_le_maxRelId {rels : List Relationship} {r : Relationship}
    (hr : r ∈ rels) {n : Int} (hs : relIdSuffix r.id = some n) :
    n ≤ maxRelId rels := by
  unfold maxRelId
  suffices h : ∀ (m : Int), (n ≤ m ∨ r ∈ rels) → n ≤ rels.foldl
      (fun m r =>
        match relIdSuffix r.id with
        | some k => if k > m then k else m
        | none => m) m from h 0 (Or.inr hr)
  clear hr
  induction rels with
  | nil =>
      intro m hm
      rcases hm with hm | hm
      · simpa using hm
      · simp at hm
  | cons a rest ih =>
      intro m hm
      simp only [List.foldl_cons]
      apply ih
      rcases hm with hm | hm
      · left
        cases hsuf : relIdSuffix a.id with
        | none => simpa using hm
        | some k => simp only; split <;> omega
      · rcases List.mem_cons.mp hm with rfl | hmem
        · left
          rw [hs]
          simp only
          split <;> omega
        · exact Or.inr hmem

theorem wrapInt64_eq_self {x : Int} (h1 : -9223372036854775808 ≤ x)
    (h2 : x ≤ 9223372036854775807) : wrapInt64 x = x := by
  unfold wrapInt64
  rw [Int.emod_eq_of_lt (by omega) (by omega)]
  omega

/-- Below the overflow boundary, the allocated ID really is
`"rId(max+1)"`. -/
theorem nextRelationshipID_eq (rels : List Relationship)
    (h : maxRelId rels < 9223372036854775807) :
    nextRelationshipID rels = "rId" ++ natRepr (maxRelId rels + 1).toNat := by
  have h0 := maxRelId_nonneg rels
  have hw : wrapInt64 (maxRelId rels + 1) = maxRelId rels + 1 :=
    wrapInt64_eq_self (by omega) (by omega)
  unfold nextRelationshipID intRepr
  rw [hw, if_neg (by omega)]

theorem nextRelationshipID_suffix (rels : List Relationship)
    (h : maxRelId rels < 9223372036854775807) :
    relIdSuffix (nextRelationshipID rels) = some (maxRelId rels + 1) := by
  have h0 : 0 ≤ maxRelId rels := maxRelId_nonneg rels
  have h1 : (0:Int) ≤ maxRelId rels + 1 := by omega
  have hdata : (nextRelationshipID rels).data
      = 'r' :: 'I' :: 'd' :: natDigits (maxRelId rels + 1).toNat := by
    rw [nextRelationshipID_eq rels h]
    simp [natRepr, String.data_append]
  unfold relIdSuffix
  rw [hdata]
  have hle : (((maxRelId rels + 1).toNat : Nat) : Int)
      ≤ 9223372036854775807 := by
    rw [Int.toNat_of_nonneg h1]
    omega
  simp [goAtoiChars_natDigits _ hle, Int.toNat_of_nonneg h1]

/-- Below the overflow boundary, a freshly allocated relationship ID never
collides with an existing one. -/
theorem nextRelationshipID_not_mem (rels : List Relationship)
    (h : maxRelId rels < 9223372036854775807) :
    nextRelationshipID rels ∉ rels.map (·.id) := by
  intro hmem
  obtain ⟨r, hr, hid⟩ := List.mem_map.mp hmem
  have hsuf : relIdSuffix r.id = some (maxRelId rels + 1) := by
    rw [hid]; exact nextRelationshipID_suffix rels h
  have := relIdSuffix_le_maxRelId hr hsuf
  omega

/-- At the boundary, Go's `maxID + 1` wraps and the printed ID is the
minimal 64-bit integer. -/
theorem nextRelationshipID_overflow (rels : List Relationship)
    (h : maxRelId rels = 9223372036854775807) :
    nextRelationshipID rels = "rId-9223372036854775808" := by
  unfold nextRelationshipID
  rw [h]
  have hw : wrapInt64 (9223372036854775807 + 1)
      = -9223372036854775808 := by decide
  rw [hw]
  rfl

/-- C1 counterexample: with an existing maximal suffix
`rId9223372036854775807` and an existing `rId-9223372036854775808`, the
allocation wraps to the latter and the append duplicates it — the claimed
max-plus-one allocation and per-part ID uniqueness fail. -/
theorem nextRelationshipID_overflow_counterexample :
    maxRelId [⟨"rId9223372036854775807", "T", "t", ""⟩,
              ⟨"rId-9223372036854775808", "U", "u", ""⟩]
      = 9223372036854775807 ∧
    nextRelationshipID [⟨"rId9223372036854775807", "T", "t", ""⟩,
                        ⟨"rId-9223372036854775808", "U", "u", ""⟩]
      = "rId-9223372036854775808" ∧
    (([⟨"rId9223372036854775807", "T", "t", ""⟩,
       ⟨"rId-9223372036854775808", "U", "u", ""⟩] :
        List Relationship).map (·.id)).Nodup ∧
    ¬ ((ensureRelationshipWithMode
          [⟨"rId9223372036854775807", "T", "t", ""⟩,
           ⟨"rId-9223372036854775808", "U", "u", ""⟩] "V" "v" "").2.map
        (·.id)).Nodup := by
  refine ⟨by decide, by decide, by decide, by decide⟩

/-- C1 (amended): `ensureRelationshipWithMode` returns the ID of an
existing relationship matching type, target and mode; otherwise it appends
a new relationship under `nextRelationshipID`, which takes the running
maximum (in Go's 64-bit `int`) of the in-range numeric `rId` suffixes and
increments it.  While that maximum is below the 64-bit boundary the
allocated suffix is max-plus-one, the ID is fresh, and per-part ID
uniqueness is preserved; at the boundary the increment wraps and the
function emits `"rId-9223372036854775808"`, which can duplicate an
existing ID. -/
theorem ensureRelationship_amended
    (rels : List Relationship) (relType target mode : String) :
    ((∃ rel ∈ rels, relMatches relType target mode rel = true) →
      (ensureRelationshipWithMode rels relType target mode).2 = rels ∧
      ∃ rel ∈ rels, relMatches relType target mode rel = true ∧
        (ensureRelationshipWithMode rels relType target mode).1 = rel.id) ∧
    ((∀ rel ∈ rels, relMatches relType target mode rel = false) →
      (ensureRelationshipWithMode rels relType target mode).1
          = nextRelationshipID rels ∧
      (ensureRelationshipWithMode rels relType target mode).2
          = rels ++ [⟨nextRelationshipID rels, relType, target, mode⟩]) ∧
    (maxRelId rels < 9223372036854775807 →
      nextRelationshipID rels = "rId" ++ natRepr (maxRelId rels + 1).toNat ∧
      nextRelationshipID rels ∉ rels.map (·.id) ∧
      ((rels.map (·.id)).Nodup →
        ((ensureRelationshipWithMode rels relType target mode).2.map
          (·.id)).Nodup)) ∧
    (maxRelId rels = 9223372036854775807 →
      nextRelationshipID rels = "rId-9223372036854775808") := by
  cases hfind : rels.find? (relMatches relType target mode) with
  | some rel =>
      have hmem := List.mem_of_find?_eq_some hfind
      have hmatch := List.find?_some hfind
      refine ⟨fun _ => ?_, fun hall => ?_, fun hmax => ?_,
        fun hov => nextRelationshipID_overflow rels hov⟩
      · constructor
        · simp [ensureRelationshipWithMode, hfind]
        · exact ⟨rel, hmem, hmatch, by simp [ensureRelationshipWithMode, hfind]⟩
      · have := hall rel hmem
        rw [hmatch] at this
        cases this
      · refine ⟨nextRelationshipID_eq rels hmax,
          nextRelationshipID_not_mem rels hmax, fun hnd => ?_⟩
        simpa [ensureRelationshipWithMode, hfind] using hnd
  | none =>
      have hnone := List.find?_eq_none.mp hfind
      refine ⟨fun hex => ?_, fun _ => ?_, fun hmax => ?_,
        fun hov => nextRelationshipID_overflow rels hov⟩
      · obtain ⟨rel, hmem, hmatch⟩ := hex
        have := hnone rel hmem
        rw [hmatch] at this
        cases this rfl
      · exact ⟨by simp [ensureRelationshipWithMode, hfind],
          by simp [ensureRelationshipWithMode, hfind]⟩
      · refine ⟨nextRelationshipID_eq rels hmax,
          nextRelationshipID_not_mem rels hmax, fun hnd => ?_⟩
        have hfresh := nextRelationshipID_not_mem rels hmax
        have hmap : (ensureRelationshipWithMode rels relType target mode).2.map
              (·.id)
            = rels.map (·.id) ++ [nextRelationshipID rels] := by
          simp [ensureRelationshipWithMode, hfind]
        rw [hmap]
        rw [List.nodup_append]
        exact ⟨hnd, List.nodup_singleton _,
          by simpa [List.disjoint_singleton] using hfresh⟩

/-- Witness for the amended C1 at concrete inputs: an existing match, a
fresh non-overflowing allocation with uniqueness preserved, and the
wrapped ID at the boundary. -/
theorem ensureRelationship_amended_witness :
    (ensureRelationshipWithMode [⟨"rId1", "T", "t", ""⟩] "T" "t" "").2
        = [⟨"rId1", "T", "t", ""⟩] ∧
    (ensureRelationshipWithMode [⟨"rId1", "T", "t", ""⟩] "U" "u" "").1
        = nextRelationshipID [⟨"rId1", "T", "t", ""⟩] ∧
    nextRelationshipID [⟨"rId1", "T", "t", ""⟩]
        = "rId" ++ natRepr (maxRelId [⟨"rId1", "T", "t", ""⟩] + 1).toNat ∧
    ((ensureRelationshipWithMode [⟨"rId1", "T", "t", ""⟩] "U" "u" "").2.map
        (·.id)).Nodup ∧
    nextRelationshipID [⟨"rId9223372036854775807", "T", "t", ""⟩]
        = "rId-9223372036854775808" := by
  have hall : ∀ rel ∈ ([⟨"rId1", "T", "t", ""⟩] : List Relationship),
      relMatches "U" "u" "" rel = false := by
    intro rel hrel
    have : rel = ⟨"rId1", "T", "t", ""⟩ := by simpa using hrel
    subst this
    decide
  refine ⟨((ensureRelationship_amended [⟨"rId1", "T", "t", ""⟩] "T" "t" "").1
      ⟨⟨"rId1", "T", "t", ""⟩, by simp, by decide⟩).1,
    ((ensureRelationship_amended [⟨"rId1", "T", "t", ""⟩] "U" "u" "").2.1
      hall).1,
    ((ensureRelationship_amended [⟨"rId1", "T", "t", ""⟩] "U" "u" "").2.2.1
      (by decide)).1,
    ((ensureRelationship_amended [⟨"rId1", "T", "t", ""⟩] "U" "u" "").2.2.1
      (by decide)).2.2 (by decide),
    (ensureRelationship_amended [⟨"rId9223372036854775807", "T", "t", ""⟩]
      "V" "v" "").2.2.2 (by decide)⟩

/-! ### Sorting and map-lookup facts for the content-types manifest -/

theorem sortStrings_sorted (l : List String) : (sortStrings l).Sorted (· ≤ ·) :=
  List.sorted_insertionSort _ l

theorem sortStrings_perm_eq {l₁ l₂ : List String} (h : l₁.Perm l₂) :
    sortStrings l₁ = sortStrings l₂ :=
  List.eq_of_perm_of_sorted
    ((List.perm_insertionSort _ l₁).trans (h.trans (List.perm_insertionSort _ l₂).symm))
    (sortStrings_sorted l₁) (sortStrings_sorted l₂)

theorem mapGet_cons (x : String × String) (l : List (String × String))
    (k : String) :
    mapGet (x :: l) k = if x.1 == k then x.2 else mapGet l k := by
  by_cases hx : x.1 == k
  · have hfind : List.find? (fun kv => kv.1 == k) (x :: l) = some x :=
      List.find?_cons_of_pos _ (by simpa using hx)
    unfold mapGet
    rw [hfind]
    simp [hx]
  · have hfind : List.find? (fun kv => kv.1 == k) (x :: l)
        = List.find? (fun kv => kv.1 == k) l :=
      List.find?_cons_of_neg _ (by simpa using hx)
    unfold mapGet
    rw [hfind]
    simp [hx]

theorem mapGet_perm {l₁ l₂ : List (String × String)} (h : l₁.Perm l₂) :
    (l₁.map (·.1)).Nodup → ∀ k, mapGet l₁ k = mapGet l₂ k := by
  induction h with
  | nil => intro _ k; rfl
  | cons x h ih =>
      intro hnd k
      simp only [List.map_cons, List.nodup_cons] at hnd
      rw [mapGet_cons, mapGet_cons]
      by_cases hx : x.1 == k
      · simp [hx]
      · simp only [hx, Bool.false_eq_true, if_neg, not_false_iff,
          if_false]
        exact ih hnd.2 k
  | swap x y l =>
      intro hnd k
      have hxy : y.1 ≠ x.1 := by
        simp only [List.map_cons, List.nodup_cons, List.mem_cons] at hnd
        exact fun he => hnd.1 (Or.inl he)
      rw [mapGet_cons, mapGet_cons, mapGet_cons, mapGet_cons]
      by_cases hx : x.1 == k <;> by_cases hy : y.1 == k
      · exact absurd ((eq_of_beq hy).trans (eq_of_beq hx).symm) hxy
      · simp [hx, hy]
      · simp [hx, hy]
      · simp [hx, hy]
  | trans h1 h2 ih1 ih2 =>
      intro hnd k
      exact (ih1 hnd k).trans (ih2 ((h1.map _).nodup_iff.mp hnd) k)

theorem writeContentTypes_defaults_of_ne (d o : List (String × String))
    (h : d ≠ []) :
    (writeContentTypes d o).1.defaults
      = (sortStrings (d.map (·.1))).map
          (fun ext => CTDefault.mk ext (mapGet d ext)) := by
  cases d with
  | nil => exact absurd rfl h
  | cons a l => rfl

theorem writeContentTypes_defaults_nil (o : List (String × String)) :
    (writeContentTypes [] o).1.defaults
      = ["rels", "xml"].map (fun ext => CTDefault.mk ext
          (mapGet [("rels", ContentTypeRels), ("xml", "application/xml")] ext)) :=
  rfl

theorem writeContentTypes_overrides (d o : List (String × String)) :
    (writeContentTypes d o).1.overrides
      = (sortStrings (o.map (·.1))).map
          (fun pn => CTOverride.mk pn (mapGet o pn)) := by
  cases d with
  | nil => rfl
  | cons a l => rfl

/-- C8: the content-types manifest has its Default entries sorted by
extension and its Override entries sorted by part name, the manifest is
independent of the registration order of the registries, and `saveAs` writes
exactly this manifest (the save output carries a single manifest). -/
theorem contentTypes_manifest_sorted_and_deterministic
    (d o : List (String × String)) :
    ((writeContentTypes d o).1.defaults.map (·.extension)).Sorted (· ≤ ·) ∧
    ((writeContentTypes d o).1.overrides.map (·.partName)).Sorted (· ≤ ·) ∧
    (∀ d' o', d.Perm d' → o.Perm o' →
      (d.map (·.1)).Nodup → (o.map (·.1)).Nodup →
      (writeContentTypes d o).1 = (writeContentTypes d' o').1) ∧
    (∀ (p : Package) (path : String),
      (p.saveAs path).2.manifest
        = (writeContentTypes p.defaultContentTypes p.contentTypes).1) := by
  have hov : ∀ o' : List (String × String), o.Perm o' →
      (o.map (·.1)).Nodup →
      (writeContentTypes d o).1.overrides = (writeContentTypes d o').1.overrides := by
    intro o' ho hndo
    rw [writeContentTypes_overrides, writeContentTypes_overrides,
      sortStrings_perm_eq (ho.map _)]
    exact List.map_congr_left (fun pn _ => by rw [mapGet_perm ho hndo pn])
  refine ⟨?_, ?_, ?_, fun p path => rfl⟩
  · cases hd : d with
    | nil =>
        rw [writeContentTypes_defaults_nil]
        simp only [List.map_map, List.map_cons, List.map_nil, Function.comp]
        apply List.sorted_cons.mpr
        refine ⟨fun b hb => ?_, List.sorted_singleton _⟩
        rw [List.mem_singleton] at hb
        subst hb
        rw [String.le_iff_toList_le]
        decide
    | cons a l =>
        rw [writeContentTypes_defaults_of_ne _ _ (by simp), List.map_map]
        have hcomp : ((fun c => CTDefault.extension c) ∘
            fun ext => CTDefault.mk ext (mapGet (a :: l) ext))
              = fun ext => ext := rfl
        rw [hcomp]
        simpa using sortStrings_sorted _
  · rw [writeContentTypes_overrides, List.map_map]
    have hcomp : ((fun c => CTOverride.partName c) ∘
        fun pn => CTOverride.mk pn (mapGet o pn)) = fun pn => pn := rfl
    rw [hcomp]
    simpa using sortStrings_sorted _
  · intro d' o' hd ho hndd hndo
    have hover : (writeContentTypes d o).1.overrides
        = (writeContentTypes d' o').1.overrides := by
      rw [hov o' ho hndo, writeContentTypes_overrides,
        writeContentTypes_overrides]
    cases hdnil : d with
    | nil =>
        have hd0' : d' = [] := by
          subst hdnil
          simpa using hd.symm
        subst hdnil; subst hd0'
        have h1 := writeContentTypes_defaults_nil o
        have h2 := writeContentTypes_defaults_nil o'
        apply TypesManifest.ext
        · rw [h1, h2]
        · exact hover
    | cons a l =>
        subst hdnil
        have hd0' : d' ≠ [] := by
          intro hc
          subst hc
          simpa using hd
        apply TypesManifest.ext
        · rw [writeContentTypes_defaults_of_ne _ _ (by simp),
            writeContentTypes_defaults_of_ne _ _ hd0',
            sortStrings_perm_eq (hd.map _)]
          exact List.map_congr_left (fun ext _ => by rw [mapGet_perm hd hndd ext])
        · exact hover

/-- Witness for C8: manifest equality for two permuted registration orders. -/
theorem contentTypes_manifest_deterministic_witness :
    (writeContentTypes [("xml", "a"), ("rels", "b")] [("/b", "x"), ("/a", "y")]).1
      = (writeContentTypes [("rels", "b"), ("xml", "a")] [("/a", "y"), ("/b", "x")]).1 :=
  (contentTypes_manifest_sorted_and_deterministic
    [("xml", "a"), ("rels", "b")] [("/b", "x"), ("/a", "y")]).2.2.1
    [("rels", "b"), ("xml", "a")] [("/a", "y"), ("/b", "x")]
    (by decide) (by decide) (by decide) (by decide)

/-- C10: `Save` on a package with no recorded file path fails, directing the
caller to `SaveAs`, and performs no write and no state change; `SaveAs`
records the path so a subsequent `Save` targets it. -/
theorem save_requires_path_and_saveAs_records_it (p : Package) (path : String) :
    (p.filePath = "" →
      p.save = Except.error "no file path set, use SaveAs instead") ∧
    (p.saveAs path).1.filePath = path ∧
    (path ≠ "" →
      (p.saveAs path).1.save = Except.ok ((p.saveAs path).1.saveAs path)) := by
  refine ⟨fun h => ?_, rfl, fun h => ?_⟩
  · simp [Package.save, h]
  · simp [Package.save, Package.saveAs, h]

/-- Witness for C10 on a concrete empty package and path. -/
theorem save_requires_path_witness :
    (Package.mk [] [] "" [] []).save
        = Except.error "no file path set, use SaveAs instead" ∧
    ((Package.mk [] [] "" [] []).saveAs "out.docx").1.filePath = "out.docx" ∧
    ((Package.mk [] [] "" [] []).saveAs "out.docx").1.save
        = Except.ok (((Package.mk [] [] "" [] []).saveAs "out.docx").1.saveAs
            "out.docx") := by
  refine ⟨(save_requires_path_and_saveAs_records_it
      (Package.mk [] [] "" [] []) "out.docx").1 rfl,
    (save_requires_path_and_saveAs_records_it
      (Package.mk [] [] "" [] []) "out.docx").2.1,
    (save_requires_path_and_saveAs_records_it
      (Package.mk [] [] "" [] []) "out.docx").2.2 (by decide)⟩

/-! ### Table creation (C4) and merge validation (C3) -/

theorem Table.setBorder_rows (t : Table) (side : String) (b : TableBorder) :
    (t.setBorder side b).rows = t.rows := by
  unfold Table.setBorder
  split
  · rfl
  · split <;> rfl

theorem foldl_setBorder_rows (sides : List String) (b : TableBorder)
    (t : Table) :
    (sides.foldl (fun t side => t.setBorder side b) t).rows = t.rows := by
  induction sides generalizing t with
  | nil => rfl
  | cons a l ih => rw [List.foldl_cons, ih, Table.setBorder_rows]

theorem NewTable_rows (rows cols : Nat) :
    (NewTable rows cols).rows
      = List.replicate rows
          { cells := List.replicate cols
              { paragraphs := [NewParagraph], width := 1440 } } := by
  unfold NewTable
  rw [foldl_setBorder_rows]

/-- C4 counterexample: requesting a 0×0 table does not produce a
`ValidationError` — there is no error channel at all — and the document part
is mutated: the empty table is appended to the body. -/
theorem addTable_accepts_zero_dims :
    ((DocumentPart.mk [] [] [] [] [] 0).addTable 0 0).2.bodyElements
        = [BodyElement.tbl (NewTable 0 0)] ∧
    (NewTable 0 0).rows = [] ∧
    ((DocumentPart.mk [] [] [] [] [] 0).addTable 0 0).2
        ≠ DocumentPart.mk [] [] [] [] [] 0 := by
  refine ⟨rfl, rfl, ?_⟩
  intro h
  have := congrArg DocumentPart.bodyElements h
  simp [DocumentPart.addTable] at this

/-- C4 amended: the table-creating operations perform no dimension
validation: `AddTable` unconditionally creates a `rows × cols` table (so a
request with `rows = 0` or `cols = 0` yields a degenerate empty table rather
than an error) and always appends it to the document body.  (Negative
dimensions make Go's `make` panic; sizes are therefore modelled as `Nat`.) -/
theorem addTable_no_validation (dp : DocumentPart) (rows cols : Nat) :
    (dp.addTable rows cols).1 = NewTable rows cols ∧
    (NewTable rows cols).rows.length = rows ∧
    ((NewTable rows cols).rows.all fun row => row.cells.length == cols) = true ∧
    (dp.addTable rows cols).2.bodyElements
      = dp.bodyElements ++ [BodyElement.tbl (NewTable rows cols)] ∧
    (dp.addTable rows cols).2.tables = dp.tables ++ [NewTable rows cols] := by
  refine ⟨rfl, ?_, ?_, rfl, rfl⟩
  · rw [NewTable_rows]
    simp
  · rw [NewTable_rows]
    simp only [List.all_eq_true]
    intro row hrow
    rw [List.eq_of_mem_replicate hrow]
    simp

theorem rows_set_getD_ne (t : Table) (i j : Nat) (row' : TableRow)
    (h : j ≠ i) :
    ({ t with rows := t.rows.set i row' } : Table).rows.getD j {}
      = t.rows.getD j {} := by
  simp only
  rw [List.getD_eq_getElem?_getD, List.getD_eq_getElem?_getD,
    List.getElem?_set_ne (by omega)]

theorem rows_set_getD_self (t : Table) (i : Nat) (row' : TableRow)
    (h : i < t.rows.length) :
    ({ t with rows := t.rows.set i row' } : Table).rows.getD i {} = row' := by
  simp only
  rw [List.getD_eq_getElem?_getD, List.getElem?_set_self (by simpa using h)]
  rfl

theorem vMergeLoop_ok (col startR : Nat) :
    ∀ (count : Nat) (t : Table) (i : Nat),
    (∀ j, i ≤ j → j < i + count → col < (t.rows.getD j {}).cells.length) →
    (vMergeLoop col startR t i count).2 = none ∧
    (vMergeLoop col startR t i count).1.rows.length = t.rows.length ∧
    ∀ j, (vMergeLoop col startR t i count).1.rows.getD j {}
        = if i ≤ j ∧ j < i + count then
            vMarkRow (t.rows.getD j {}) col
              (if j = startR then "restart" else "continue")
          else t.rows.getD j {} := by
  intro count
  induction count with
  | zero =>
      intro t i _
      refine ⟨rfl, rfl, fun j => ?_⟩
      rw [if_neg (by omega)]
      rfl
  | succ c ih =>
      intro t i hgood
      have hi_len : col < (t.rows.getD i {}).cells.length :=
        hgood i le_rfl (by omega)
      have hi_lt : i < t.rows.length := by
        by_contra hle
        rw [List.getD_eq_getElem?_getD, List.getElem?_eq_none (by omega)]
          at hi_len
        simp at hi_len
      have hnotle : ¬ (t.rows.getD i {}).cells.length ≤ col := by omega
      simp only [vMergeLoop]
      rw [if_neg hnotle]
      obtain ⟨hnone, hlen, hform⟩ :=
        ih { t with rows := (t.rows.set i (vMarkRow (t.rows.getD i {}) col
              (if i = startR then "restart" else "continue"))) }
          (i + 1)
          (by
            intro j h1 h2
            rw [rows_set_getD_ne t i j _ (by omega)]
            exact hgood j (by omega) (by omega))
      refine ⟨hnone, ?_, fun j => ?_⟩
      · rw [hlen]
        simp
      · rw [hform j]
        by_cases hj1 : i + 1 ≤ j ∧ j < i + 1 + c
        · have hcond : i ≤ j ∧ j < i + (c + 1) := by omega
          rw [if_pos hj1, if_pos hcond,
            rows_set_getD_ne t i j _ (show j ≠ i by omega)]
        · rw [if_neg hj1]
          by_cases hj2 : j = i
          · subst hj2
            have hcond : j ≤ j ∧ j < j + (c + 1) := by omega
            rw [if_pos hcond, rows_set_getD_self t j _ hi_lt]
          · have hcond : ¬ (i ≤ j ∧ j < i + (c + 1)) := by omega
            rw [if_neg hcond, rows_set_getD_ne t i j _ hj2]

theorem vMergeLoop_err (col startR : Nat) :
    ∀ (count : Nat) (t : Table) (i : Nat),
    ¬ (∀ j, i ≤ j → j < i + count → col < (t.rows.getD j {}).cells.length) →
    (vMergeLoop col startR t i count).2.isSome = true := by
  intro count
  induction count with
  | zero =>
      intro t i hbad
      exact absurd (fun j h1 h2 => absurd h2 (by omega)) hbad
  | succ c ih =>
      intro t i hbad
      by_cases hrow : (t.rows.getD i {}).cells.length ≤ col
      · simp only [vMergeLoop]
        rw [if_pos hrow]
        rfl
      · simp only [vMergeLoop]
        rw [if_neg hrow]
        apply ih
        intro hall
        apply hbad
        intro j h1 h2
        rcases Nat.eq_or_lt_of_le h1 with heq | hlt
        · subst heq
          omega
        · have hne : j ≠ i := by omega
          have hthis := hall j (by omega) (by omega)
          rwa [rows_set_getD_ne t i j _ hne] at hthis

/-- C3 counterexample: on a ragged table (row 0 has two cells, row 1 has
one), `MergeCellsVertically(1, 0, 1)` returns an error for the missing
column in row 1, yet the cell at row 0, column 1 has already been marked
`Restart` — the claimed "validate-before-mutate" does not hold for the
per-row column-bound check. -/
theorem mergeCellsVertically_partial_mutation_counterexample :
    (((({ rows := [{ cells := [{}, {}] }, { cells := [{}] }] } : Table)
        ).mergeCellsVertically 1 0 1).2).isSome = true ∧
    (((((({ rows := [{ cells := [{}, {}] }, { cells := [{}] }] } : Table)
        ).mergeCellsVertically 1 0 1).1.rows.getD 0 {}).cells.getD 1 {})
        ).verticalMerge = "restart" ∧
    ((((({ rows := [{ cells := [{}, {}] }, { cells := [{}] }] } : Table)
        ).rows.getD 0 {}).cells.getD 1 {})).verticalMerge = "" := by
  decide

/-- C3 (amended): `MergeCellsHorizontally(row, start, end)` succeeds as a
no-op when `start == end` and all indices are in range, and returns an error
with the table unchanged when `end < start` or an index is out of range
(horizontal merging validates before mutating).  `MergeCellsVertically(col,
startRow, endRow)` validates its row range up front — erroring with the
table unchanged on a negative column, a negative or inverted row range, or
`endRow` past the last row — and on success marks the cell at `startRow`
`Restart` and every subsequent row's cell in that column `Continue`; but the
per-row column bound is only checked inside the marking loop, so when the
column is missing from some row in the span it errors after having already
marked the earlier rows' cells (no validate-before-mutate there; see the
counterexample). -/
theorem merge_validation_amended (t : Table)
    (rowIndex startI endI column startRow endRow : Int) :
    ((0 ≤ rowIndex) → (rowIndex < (t.rows.length : Int)) → (0 ≤ startI) →
      (endI = startI) →
      (endI < ((t.rows.getD rowIndex.toNat {}).cells.length : Int)) →
      t.mergeCellsHorizontally rowIndex startI endI = (t, none)) ∧
    ((rowIndex < 0 ∨ (t.rows.length : Int) ≤ rowIndex ∨ startI < 0 ∨
        endI < startI ∨
        ((t.rows.getD rowIndex.toNat {}).cells.length : Int) ≤ endI) →
      (t.mergeCellsHorizontally rowIndex startI endI).1 = t ∧
      (t.mergeCellsHorizontally rowIndex startI endI).2.isSome = true) ∧
    ((column < 0 ∨ startRow < 0 ∨ endRow < startRow ∨
        (t.rows.length : Int) ≤ endRow) →
      (t.mergeCellsVertically column startRow endRow).1 = t ∧
      (t.mergeCellsVertically column startRow endRow).2.isSome = true) ∧
    ((0 ≤ column) → (0 ≤ startRow) → (startRow ≤ endRow) →
      (endRow < (t.rows.length : Int)) →
      (∀ j, startRow.toNat ≤ j → j ≤ endRow.toNat →
        column.toNat < (t.rows.getD j {}).cells.length) →
      (t.mergeCellsVertically column startRow endRow).2 = none ∧
      (t.mergeCellsVertically column startRow endRow).1.rows.length
        = t.rows.length ∧
      ∀ j, (t.mergeCellsVertically column startRow endRow).1.rows.getD j {}
          = if startRow.toNat ≤ j ∧ j ≤ endRow.toNat then
              vMarkRow (t.rows.getD j {}) column.toNat
                (if j = startRow.toNat then "restart" else "continue")
            else t.rows.getD j {}) ∧
    ((0 ≤ column) → (0 ≤ startRow) → (startRow ≤ endRow) →
      (endRow < (t.rows.length : Int)) →
      ¬ (∀ j, startRow.toNat ≤ j → j ≤ endRow.toNat →
          column.toNat < (t.rows.getD j {}).cells.length) →
      (t.mergeCellsVertically column startRow endRow).2.isSome = true) := by
  refine ⟨?_, ?_, ?_, ?_, ?_⟩
  · intro h1 h2 h3 h4 h5
    simp only [Table.mergeCellsHorizontally]
    split_ifs with ha hb hc hd
    · exact absurd ha (by omega)
    · exact absurd hb (by omega)
    · exact absurd hc (by omega)
    · rfl
    · exact absurd (show endI - startI + 1 ≤ 1 by omega) hd
  · intro hbad
    simp only [Table.mergeCellsHorizontally]
    split_ifs with ha hb hc hd
    · exact ⟨rfl, rfl⟩
    · exact ⟨rfl, rfl⟩
    · exact ⟨rfl, rfl⟩
    · exfalso; omega
    · exfalso; omega
  · intro hbad
    simp only [Table.mergeCellsVertically]
    split_ifs with ha hb
    · exact ⟨rfl, rfl⟩
    · exact ⟨rfl, rfl⟩
    · exfalso; omega
  · intro h1 h2 h3 h4 hcols
    unfold Table.mergeCellsVertically
    rw [if_neg (by omega), if_neg (by omega)]
    obtain ⟨hnone, hlen, hform⟩ :=
      vMergeLoop_ok column.toNat startRow.toNat
        (endRow.toNat + 1 - startRow.toNat) t startRow.toNat
        (by
          intro j hj1 hj2
          exact hcols j hj1 (by omega))
    refine ⟨hnone, hlen, fun j => ?_⟩
    rw [hform j]
    have hiff : (startRow.toNat ≤ j ∧
        j < startRow.toNat + (endRow.toNat + 1 - startRow.toNat))
        ↔ (startRow.toNat ≤ j ∧ j ≤ endRow.toNat) := by omega
    rw [if_congr hiff rfl rfl]
  · intro h1 h2 h3 h4 hbad
    unfold Table.mergeCellsVertically
    rw [if_neg (by omega), if_neg (by omega)]
    apply vMergeLoop_err
    intro hall
    apply hbad
    intro j hj1 hj2
    exact hall j hj1 (by omega)

/-- Witness for the amended C3 on a concrete 2×2 table (and out-of-range
inputs): no-op success, unchanged-on-error, vertical success, and vertical
column error. -/
theorem merge_validation_amended_witness :
    ({ rows := [{ cells := [{}, {}] }, { cells := [{}, {}] }] }
        : Table).mergeCellsHorizontally 0 1 1
      = ({ rows := [{ cells := [{}, {}] }, { cells := [{}, {}] }] }, none) ∧
    (({ rows := [{ cells := [{}, {}] }, { cells := [{}, {}] }] }
        : Table).mergeCellsHorizontally 0 0 5).1
      = { rows := [{ cells := [{}, {}] }, { cells := [{}, {}] }] } ∧
    (({ rows := [{ cells := [{}, {}] }, { cells := [{}, {}] }] }
        : Table).mergeCellsVertically 0 0 5).1
      = { rows := [{ cells := [{}, {}] }, { cells := [{}, {}] }] } ∧
    (({ rows := [{ cells := [{}, {}] }, { cells := [{}, {}] }] }
        : Table).mergeCellsVertically 0 0 1).2 = none ∧
    (({ rows := [{ cells := [{}, {}] }, { cells := [{}, {}] }] }
        : Table).mergeCellsVertically 5 0 1).2.isSome = true := by
  refine ⟨(merge_validation_amended _ 0 1 1 0 0 1).1
      (by decide) (by decide) (by decide) (by decide) (by decide),
    ((merge_validation_amended _ 0 0 5 0 0 1).2.1 (by decide)).1,
    ((merge_validation_amended _ 0 0 1 0 0 5).2.2.1 (by decide)).1,
    ((merge_validation_amended _ 0 0 1 0 0 1).2.2.2.1
      (by decide) (by decide) (by decide) (by decide)
      (by
        intro j h1 h2
        have hj : j = 0 ∨ j = 1 := by omega
        rcases hj with rfl | rfl <;> decide)).1,
    (merge_validation_amended _ 0 0 1 5 0 1).2.2.2.2
      (by decide) (by decide) (by decide) (by decide)
      (by
        intro hall
        exact absurd (hall 0 (by omega) (by omega)) (by decide))⟩

/-! ### Column-width inference: code/spec equivalence (C2) -/

theorem getD_set_self {α : Type} (l : List α) (i : Nat) (v d : α)
    (h : i < l.length) : (l.set i v).getD i d = v := by
  rw [List.getD_eq_getElem?_getD, List.getElem?_set_self (by simpa using h)]
  rfl

theorem getD_set_ne {α : Type} (l : List α) (i j : Nat) (v d : α)
    (h : j ≠ i) : (l.set i v).getD j d = l.getD j d := by
  rw [List.getD_eq_getElem?_getD, List.getD_eq_getElem?_getD,
    List.getElem?_set_ne (by omega)]

theorem spanVal_self (col : Nat) (per rem : Int) (h : 0 ≤ rem) :
    spanVal col col per rem = if rem > 0 then per + 1 else per := by
  unfold spanVal
  by_cases hr : rem > 0
  · rw [if_pos (by omega), if_pos hr]
  · rw [if_neg (by omega), if_neg hr]
    omega

theorem spanVal_shift (col c : Nat) (per rem : Int) (hc : col + 1 ≤ c)
    (h : 0 ≤ rem) :
    spanVal (col + 1) c per (if rem > 0 then rem - 1 else rem)
      = spanVal col c per rem := by
  unfold spanVal
  congr 1
  by_cases hr : rem > 0
  · rw [if_pos hr]
    by_cases h2 : ((c : Int) - (col : Int)) < rem
    · rw [if_pos (by omega), if_pos h2]
    · rw [if_neg (by omega), if_neg h2]
  · rw [if_neg hr, if_neg (by omega), if_neg (by omega)]

theorem spanHit_shift {f f' : List Bool} {col s c : Nat} {per rem : Int}
    (hfl : f'.getD c false = f.getD c false) (hc : c ≠ col) (hrem : 0 ≤ rem) :
    spanHit f' (col + 1) s c per (if rem > 0 then rem - 1 else rem)
      ↔ spanHit f col (s + 1) c per rem := by
  unfold spanHit
  constructor
  · rintro ⟨h1, h2, h3, h4⟩
    rw [spanVal_shift col c per rem (by omega) hrem] at h4
    exact ⟨by omega, by omega, by rwa [hfl] at h3, h4⟩
  · rintro ⟨h1, h2, h3, h4⟩
    have hcc : col + 1 ≤ c := by omega
    refine ⟨hcc, by omega, by rwa [hfl], ?_⟩
    rw [spanVal_shift col c per rem hcc hrem]
    exact h4

theorem fillSpan_spec (n : Nat) (per : Int) :
    ∀ (span : Nat) (widths : List Int) (filled : List Bool) (col : Nat)
      (rem : Int),
    widths.length = n → filled.length = n → col ≤ n → 0 ≤ rem →
    (fillSpan widths filled col span per rem).1.length = n ∧
    (fillSpan widths filled col span per rem).2.1.length = n ∧
    (fillSpan widths filled col span per rem).2.2 = min (col + span) n ∧
    ∀ c, c < n →
      ((fillSpan widths filled col span per rem).1.getD c 0
          = if spanHit filled col span c per rem
            then spanVal col c per rem else widths.getD c 0) ∧
      ((fillSpan widths filled col span per rem).2.1.getD c false
          = if spanHit filled col span c per rem
            then true else filled.getD c false) := by
  intro span
  induction span with
  | zero =>
      intro widths filled col rem hw hf hcol hrem
      simp only [fillSpan]
      refine ⟨hw, hf, by omega, fun c hc => ?_⟩
      have hns : ¬ spanHit filled col 0 c per rem := fun h => by
        have h1 := h.1
        have h2 := h.2.1
        omega
      rw [if_neg hns, if_neg hns]
      exact ⟨rfl, rfl⟩
  | succ s ih =>
      intro widths filled col rem hw hf hcol hrem
      by_cases hcl : col < widths.length
      case neg =>
        simp only [fillSpan]
        rw [if_neg hcl]
        refine ⟨hw, hf, by show col = min (col + (s + 1)) n; omega,
          fun c hc => ?_⟩
        have hns : ¬ spanHit filled col (s + 1) c per rem := fun h => by
          have h1 := h.1
          have h2 := h.2.1
          omega
        rw [if_neg hns, if_neg hns]
        exact ⟨rfl, rfl⟩
      case pos =>
      have hrem' : (0 : Int) ≤ (if rem > 0 then rem - 1 else rem) := by
        by_cases hr : rem > 0
        · rw [if_pos hr]; omega
        · rw [if_neg hr]; omega
      simp only [fillSpan]
      rw [if_pos hcl]
      by_cases hb : ¬ (filled.getD col false = true) ∧
          0 < (if rem > 0 then per + 1 else per)
      case pos =>
        rw [if_pos hb]
        obtain ⟨ih1, ih2, ih3, ihc⟩ :=
          ih (widths.set col (if rem > 0 then per + 1 else per))
            (filled.set col true) (col + 1)
            (if rem > 0 then rem - 1 else rem)
            (by simpa using hw) (by simpa using hf) (by omega) hrem'
        refine ⟨ih1, ih2, by rw [ih3]; omega, fun c hc => ?_⟩
        obtain ⟨ihv, ihfl⟩ := ihc c hc
        by_cases hceq : c = col
        case pos =>
          subst hceq
          have hns' : ¬ spanHit (filled.set c true) (c + 1) s c per
              (if rem > 0 then rem - 1 else rem) := fun h => by
            have h1 := h.1
            omega
          have hs : spanHit filled c (s + 1) c per rem :=
            ⟨le_rfl, by omega, hb.1, by
              rw [spanVal_self c per rem hrem]
              exact hb.2⟩
          rw [ihv, ihfl, if_neg hns', if_neg hns', if_pos hs, if_pos hs]
          rw [getD_set_self _ _ _ _ (by omega),
            spanVal_self c per rem hrem,
            getD_set_self _ _ _ _ (by omega)]
          exact ⟨rfl, rfl⟩
        case neg =>
          have hfl' : (filled.set col true).getD c false
              = filled.getD c false := getD_set_ne _ _ _ _ _ hceq
          have hiff := @spanHit_shift filled (filled.set col true) col s c
            per rem hfl' hceq hrem
          rw [ihv, ihfl]
          constructor
          · refine if_ctx_congr hiff (fun hh => ?_) (fun _ => ?_)
            · exact spanVal_shift col c per rem (by
                have h1 := hh.1
                omega) hrem
            · exact getD_set_ne _ _ _ _ _ hceq
          · exact if_ctx_congr hiff (fun _ => rfl) (fun _ => hfl')
      case neg =>
        rw [if_neg hb]
        obtain ⟨ih1, ih2, ih3, ihc⟩ :=
          ih widths filled (col + 1) (if rem > 0 then rem - 1 else rem)
            hw hf (by omega) hrem'
        refine ⟨ih1, ih2, by rw [ih3]; omega, fun c hc => ?_⟩
        obtain ⟨ihv, ihfl⟩ := ihc c hc
        by_cases hceq : c = col
        case pos =>
          subst hceq
          have hns' : ¬ spanHit filled (c + 1) s c per
              (if rem > 0 then rem - 1 else rem) := fun h => by
            have h1 := h.1
            omega
          have hns : ¬ spanHit filled c (s + 1) c per rem := fun h => by
            refine hb ⟨h.2.2.1, ?_⟩
            have h4 := h.2.2.2
            rwa [spanVal_self c per rem hrem] at h4
          rw [ihv, ihfl, if_neg hns', if_neg hns', if_neg hns, if_neg hns]
          exact ⟨rfl, rfl⟩
        case neg =>
          have hiff := @spanHit_shift filled filled col s c per rem rfl hceq
            hrem
          rw [ihv, ihfl]
          constructor
          · refine if_ctx_congr hiff (fun hh => ?_) (fun _ => rfl)
            exact spanVal_shift col c per rem (by
              have h1 := hh.1
              omega) hrem
          · exact if_ctx_congr hiff (fun _ => rfl) (fun _ => rfl)

theorem fillSpan_ge (widths : List Int) (filled : List Bool) (col : Nat)
    (span : Nat) (per rem : Int) (h : widths.length ≤ col) :
    fillSpan widths filled col span per rem = (widths, filled, col) := by
  cases span with
  | zero => rfl
  | succ s =>
      simp only [fillSpan]
      rw [if_neg (by omega)]

theorem fillCells_ge (n : Nat) :
    ∀ (cells : List TableCell) (widths : List Int) (filled : List Bool)
      (col : Nat),
    widths.length = n → n ≤ col →
    (fillCells widths filled col cells).1 = widths ∧
    (fillCells widths filled col cells).2.1 = filled := by
  intro cells
  induction cells with
  | nil => intro widths filled col hw hcol; exact ⟨rfl, rfl⟩
  | cons cell rest ih =>
      intro widths filled col hw hcol
      simp only [fillCells]
      by_cases htot : cell.width ≤ 0
      · rw [if_pos htot]
        exact ih widths filled (col + cell.gridSpanVal.toNat) hw (by omega)
      · rw [if_neg htot]
        rw [fillSpan_ge widths filled col _ _ _ (by omega)]
        exact ih widths filled col hw hcol

theorem specRowCand_lt (n : Nat) :
    ∀ (cells : List TableCell) (col c : Nat), c < col →
    specRowCand n col cells c = none := by
  intro cells
  induction cells with
  | nil => intro col c _; rfl
  | cons cell rest ih =>
      intro col c hc
      simp only [specRowCand]
      by_cases htot : cell.width ≤ 0
      · rw [if_pos htot]
        exact ih _ c (by omega)
      · rw [if_neg htot,
          if_neg (fun h => by have h1 := h.1; omega)]
        exact ih _ c (by omega)

theorem gridSpanVal_toNat_pos (tc : TableCell) :
    1 ≤ tc.gridSpanVal.toNat := by
  unfold TableCell.gridSpanVal
  split <;> omega

theorem fillCells_spec (n : Nat) :
    ∀ (cells : List TableCell) (widths : List Int) (filled : List Bool)
      (col : Nat),
    widths.length = n → filled.length = n →
    (fillCells widths filled col cells).1.length = n ∧
    (fillCells widths filled col cells).2.1.length = n ∧
    ∀ c, c < n →
      ((fillCells widths filled col cells).1.getD c 0
          = if filled.getD c false = true then widths.getD c 0
            else (specRowCand n col cells c).getD (widths.getD c 0)) ∧
      ((fillCells widths filled col cells).2.1.getD c false
          = (filled.getD c false || (specRowCand n col cells c).isSome)) := by
  intro cells
  induction cells with
  | nil =>
      intro widths filled col hw hf
      refine ⟨hw, hf, fun c hc => ?_⟩
      simp only [fillCells, specRowCand, Option.getD, Bool.or_false]
      constructor
      · by_cases hfil : filled.getD c false = true
        · rw [if_pos hfil]
        · rw [if_neg hfil]
      · simp
  | cons cell rest ih =>
      intro widths filled col hw hf
      by_cases hcol : col ≤ n
      case neg =>
        obtain ⟨hv, hfl⟩ := fillCells_ge n (cell :: rest) widths filled col hw
          (by omega)
        refine ⟨by rw [hv]; exact hw, by rw [hfl]; exact hf, fun c hc => ?_⟩
        rw [hv, hfl, specRowCand_lt n (cell :: rest) col c (by omega)]
        constructor
        · by_cases hfil : filled.getD c false = true
          · rw [if_pos hfil]
          · rw [if_neg hfil]
            rfl
        · simp
      case pos =>
      simp only [fillCells, specRowCand]
      by_cases htot : cell.width ≤ 0
      · simp only [if_pos htot]
        exact ih widths filled (col + cell.gridSpanVal.toNat) hw hf
      · simp only [if_neg htot]
        have hspan1 : 1 ≤ cell.gridSpanVal.toNat := gridSpanVal_toNat_pos cell
        have hspanne : ((cell.gridSpanVal.toNat : Int)) ≠ 0 := by
          omega
        have hrem : (0 : Int) ≤ cell.width % (cell.gridSpanVal.toNat : Int) :=
          Int.emod_nonneg _ hspanne
        obtain ⟨hl1, hl2, hcol1, hpt⟩ :=
          fillSpan_spec n (cell.width / (cell.gridSpanVal.toNat : Int))
            cell.gridSpanVal.toNat widths filled col
            (cell.width % (cell.gridSpanVal.toNat : Int)) hw hf hcol hrem
        obtain ⟨ihl1, ihl2, ihpt⟩ :=
          ih (fillSpan widths filled col cell.gridSpanVal.toNat
                (cell.width / (cell.gridSpanVal.toNat : Int))
                (cell.width % (cell.gridSpanVal.toNat : Int))).1
            (fillSpan widths filled col cell.gridSpanVal.toNat
                (cell.width / (cell.gridSpanVal.toNat : Int))
                (cell.width % (cell.gridSpanVal.toNat : Int))).2.1
            (fillSpan widths filled col cell.gridSpanVal.toNat
                (cell.width / (cell.gridSpanVal.toNat : Int))
                (cell.width % (cell.gridSpanVal.toNat : Int))).2.2
            hl1 hl2
        refine ⟨ihl1, ihl2, fun c hc => ?_⟩
        obtain ⟨hv1, hf1⟩ := hpt c hc
        obtain ⟨ihv, ihf⟩ := ihpt c hc
        rw [ihv, ihf, hv1, hf1]
        by_cases hP : col ≤ c ∧ c < col + cell.gridSpanVal.toNat
        case pos =>
          have hclt : c < (fillSpan widths filled col cell.gridSpanVal.toNat
              (cell.width / (cell.gridSpanVal.toNat : Int))
              (cell.width % (cell.gridSpanVal.toNat : Int))).2.2 := by
            rw [hcol1]
            omega
          rw [specRowCand_lt n rest _ c hclt,
            if_pos (show col ≤ c ∧ c < col + cell.gridSpanVal.toNat ∧ c < n
              from ⟨hP.1, hP.2, hc⟩)]
          by_cases hfil : filled.getD c false = true
          case pos =>
            have hnhit : ¬ spanHit filled col cell.gridSpanVal.toNat c
                (cell.width / (cell.gridSpanVal.toNat : Int))
                (cell.width % (cell.gridSpanVal.toNat : Int)) :=
              fun h => h.2.2.1 hfil
            rw [if_neg hnhit, if_neg hnhit]
            constructor
            · rw [if_pos hfil, if_pos hfil]
            · rw [hfil]
              simp
          case neg =>
            by_cases hw0 : 0 < cell.width / (cell.gridSpanVal.toNat : Int)
                + (if ((c : Int) - (col : Int))
                    < cell.width % (cell.gridSpanVal.toNat : Int)
                   then 1 else 0)
            case pos =>
              have hhit : spanHit filled col cell.gridSpanVal.toNat c
                  (cell.width / (cell.gridSpanVal.toNat : Int))
                  (cell.width % (cell.gridSpanVal.toNat : Int)) :=
                ⟨hP.1, hP.2, hfil, hw0⟩
              rw [if_pos hhit, if_pos hhit]
              constructor
              · rw [if_pos rfl, if_neg hfil, if_pos hw0]
                rfl
              · have hfil' : filled.getD c false = false := by
                  simpa using hfil
                rw [hfil']
                simp
                simpa using hw0
            case neg =>
              have hnhit : ¬ spanHit filled col cell.gridSpanVal.toNat c
                  (cell.width / (cell.gridSpanVal.toNat : Int))
                  (cell.width % (cell.gridSpanVal.toNat : Int)) :=
                fun h => hw0 h.2.2.2
              rw [if_neg hnhit, if_neg hnhit]
              constructor
              · rw [if_neg hfil, if_neg hfil, if_neg hw0]
              · rw [if_neg hw0]
        case neg =>
          have hnhit : ¬ spanHit filled col cell.gridSpanVal.toNat c
              (cell.width / (cell.gridSpanVal.toNat : Int))
              (cell.width % (cell.gridSpanVal.toNat : Int)) :=
            fun h => hP ⟨h.1, h.2.1⟩
          have hrec : specRowCand n (fillSpan widths filled col
                cell.gridSpanVal.toNat
                (cell.width / (cell.gridSpanVal.toNat : Int))
                (cell.width % (cell.gridSpanVal.toNat : Int))).2.2 rest c
              = specRowCand n (col + cell.gridSpanVal.toNat) rest c := by
            rw [hcol1]
            by_cases hcs : col + cell.gridSpanVal.toNat ≤ n
            · rw [min_eq_left hcs]
            · rw [min_eq_right (by omega)]
              rw [specRowCand_lt n rest n c (by omega),
                specRowCand_lt n rest _ c (by omega)]
          rw [if_neg hnhit, if_neg hnhit, hrec,
            if_neg (fun h : col ≤ c ∧ c < col + cell.gridSpanVal.toNat ∧
              c < n => hP ⟨h.1, h.2.1⟩)]
          exact ⟨rfl, rfl⟩

theorem all_getD_true (l : List Bool) (hall : (l.all fun b => b) = true)
    (c : Nat) (hc : c < l.length) : l.getD c false = true := by
  rw [List.getD_eq_getElem?_getD, List.getElem?_eq_getElem hc]
  simp only [Option.getD_some]
  exact List.all_eq_true.mp hall _ (l.getElem_mem hc)

theorem widthsLoop_spec (n : Nat) :
    ∀ (rows : List TableRow) (widths : List Int) (filled : List Bool),
    widths.length = n → filled.length = n →
    (widthsLoop widths filled rows).1.length = n ∧
    (widthsLoop widths filled rows).2.length = n ∧
    ∀ c, c < n →
      ((widthsLoop widths filled rows).1.getD c 0
          = if filled.getD c false = true then widths.getD c 0
            else (firstSome (rows.map
                (fun row => specRowCand n 0 row.cells c))).getD
              (widths.getD c 0)) ∧
      ((widthsLoop widths filled rows).2.getD c false
          = (filled.getD c false ||
             (firstSome (rows.map
                (fun row => specRowCand n 0 row.cells c))).isSome)) := by
  intro rows
  induction rows with
  | nil =>
      intro widths filled hw hf
      refine ⟨hw, hf, fun c hc => ?_⟩
      simp only [widthsLoop, List.map_nil, firstSome, Option.getD,
        Bool.or_false]
      constructor
      · by_cases hfil : filled.getD c false = true
        · rw [if_pos hfil]
        · rw [if_neg hfil]
      · simp
  | cons row rest ih =>
      intro widths filled hw hf
      obtain ⟨hl1, hl2, hpt⟩ := fillCells_spec n row.cells widths filled 0 hw hf
      simp only [widthsLoop, List.map_cons]
      by_cases hall : ((fillCells widths filled 0 row.cells).2.1.all
          fun b => b) = true
      case pos =>
        rw [if_pos hall]
        refine ⟨hl1, hl2, fun c hc => ?_⟩
        obtain ⟨hv, hfl⟩ := hpt c hc
        by_cases hfil : filled.getD c false = true
        · rw [hv, hfl, hfil]
          simp
        · have htrue : (fillCells widths filled 0 row.cells).2.1.getD c false
              = true := all_getD_true _ hall c (by omega)
          have hfil' : filled.getD c false = false := by simpa using hfil
          have hsome : (specRowCand n 0 row.cells c).isSome = true := by
            rw [hfl, hfil'] at htrue
            simpa using htrue
          obtain ⟨w, hwc⟩ := Option.isSome_iff_exists.mp hsome
          rw [hv, hfl, if_neg hfil, if_neg hfil, hwc]
          rw [hfil']
          exact ⟨rfl, by simp [firstSome]⟩
      case neg =>
        rw [if_neg hall]
        obtain ⟨ih1, ih2, ihpt⟩ :=
          ih (fillCells widths filled 0 row.cells).1
            (fillCells widths filled 0 row.cells).2.1 hl1 hl2
        refine ⟨ih1, ih2, fun c hc => ?_⟩
        obtain ⟨hv, hfl⟩ := hpt c hc
        obtain ⟨ihv, ihf⟩ := ihpt c hc
        rw [ihv, ihf, hv, hfl]
        by_cases hfil : filled.getD c false = true
        · rw [hfil]
          simp
        · have hfil' : filled.getD c false = false := by simpa using hfil
          rw [hfil']
          cases hcand : specRowCand n 0 row.cells c <;> simp [firstSome]

theorem specRowCand_pos (n : Nat) :
    ∀ (cells : List TableCell) (col c : Nat) (w : Int),
    specRowCand n col cells c = some w → 0 < w := by
  intro cells
  induction cells with
  | nil =>
      intro col c w h
      simp only [specRowCand] at h
      exact Option.noConfusion h
  | cons cell rest ih =>
      intro col c w h
      simp only [specRowCand] at h
      by_cases htot : cell.width ≤ 0
      · rw [if_pos htot] at h
        exact ih _ c w h
      · rw [if_neg htot] at h
        by_cases hP : col ≤ c ∧ c < col + cell.gridSpanVal.toNat ∧ c < n
        · rw [if_pos hP] at h
          by_cases hw0 : 0 < cell.width / (cell.gridSpanVal.toNat : Int)
              + (if ((c : Int) - (col : Int))
                  < cell.width % (cell.gridSpanVal.toNat : Int)
                 then 1 else 0)
          · rw [if_pos hw0] at h
            injection h with h'
            rw [← h']
            exact hw0
          · rw [if_neg hw0] at h
            cases h
        · rw [if_neg hP] at h
          exact ih _ c w h

theorem firstSome_mem :
    ∀ (l : List (Option Int)) (w : Int), firstSome l = some w → some w ∈ l := by
  intro l
  induction l with
  | nil =>
      intro w h
      simp only [firstSome] at h
      exact Option.noConfusion h
  | cons x rest ih =>
      intro w h
      cases x with
      | some v =>
          simp only [firstSome] at h
          rw [h]
          exact List.mem_cons_self _ _
      | none =>
          simp only [firstSome] at h
          exact List.mem_cons_of_mem _ (ih w h)

/-- C2: for a table with no explicit column grid, the inferred column widths
equal the specification's description of the algorithm (scan rows
top-to-bottom, distribute each cell's width evenly over the spanned columns
with the remainder given one unit each to the leading columns, first row to
supply a width for a column wins, unfilled columns default to 1440 twips),
and the serializer's emitted grid renders exactly `columnWidths`. -/
theorem columnWidths_matches_spec (t : Table) :
    (t.grid = [] →
      t.columnWidths = specInferColumnWidths t.gridColumns.toNat t.rows) ∧
    t.tblGridXML = tblGridOfWidths t.columnWidths := by
  refine ⟨fun hgrid => ?_, rfl⟩
  unfold Table.columnWidths
  rw [hgrid]
  rw [if_neg (by simp)]
  by_cases hgc : t.gridColumns ≤ 0
  · rw [if_pos hgc]
    have h0 : t.gridColumns.toNat = 0 := by omega
    rw [h0]
    rfl
  · rw [if_neg hgc]
    have hn : 0 < t.gridColumns.toNat := by omega
    obtain ⟨hl1, _, hpt⟩ :=
      widthsLoop_spec t.gridColumns.toNat t.rows
        (List.replicate t.gridColumns.toNat 0)
        (List.replicate t.gridColumns.toNat false)
        (List.length_replicate _ _) (List.length_replicate _ _)
    apply List.ext_getElem
    · simp only [List.length_map, hl1, specInferColumnWidths,
        List.length_range]
    · intro i h1 h2
      have hi : i < t.gridColumns.toNat := by
        simpa [specInferColumnWidths] using h2
      obtain ⟨hv, _⟩ := hpt i hi
      have hrepf : (List.replicate t.gridColumns.toNat false).getD i false
          = false := by
        rw [List.getD_eq_getElem?_getD, List.getElem?_replicate]
        simp [hi]
      have hrep0 : (List.replicate t.gridColumns.toNat (0 : Int)).getD i 0
          = 0 := by
        rw [List.getD_eq_getElem?_getD, List.getElem?_replicate]
        simp [hi]
      rw [hrepf, hrep0] at hv
      simp only [Bool.false_eq_true, if_false] at hv
      have hwl : i < (widthsLoop (List.replicate t.gridColumns.toNat 0)
          (List.replicate t.gridColumns.toNat false) t.rows).1.length := by
        rw [hl1]
        exact hi
      simp only [List.getElem_map]
      have hval : (widthsLoop (List.replicate t.gridColumns.toNat 0)
            (List.replicate t.gridColumns.toNat false) t.rows).1[i]
          = (firstSome (t.rows.map
              (fun row => specRowCand t.gridColumns.toNat 0 row.cells i))).getD
            0 := by
        rw [← hv, List.getD_eq_getElem?_getD, List.getElem?_eq_getElem hwl]
        rfl
      rw [hval]
      simp only [specInferColumnWidths, List.getElem_map, List.getElem_range]
      cases hfs : firstSome (t.rows.map
          (fun row => specRowCand t.gridColumns.toNat 0 row.cells i)) with
      | some w =>
          have hwpos : 0 < w := by
            have hmem := firstSome_mem _ w hfs
            obtain ⟨row, _, hrw⟩ := List.mem_map.mp hmem
            exact specRowCand_pos t.gridColumns.toNat row.cells 0 i w hrw
          have hne : ¬ w = 0 := by omega
          simp only [Option.getD_some]
          rw [if_neg hne]
      | none =>
          simp only [Option.getD_none]
          norm_num

theorem columnWidths_matches_spec_witness :
    ({ gridColumns := 2,
       rows := [{ cells := [{ width := 3001, gridSpan := 2 }] }] } : Table).grid
      = [] ∧
    ({ gridColumns := 2,
       rows := [{ cells := [{ width := 3001, gridSpan := 2 }] }] } : Table).columnWidths
      = specInferColumnWidths 2 [{ cells := [{ width := 3001, gridSpan := 2 }] }] :=
  ⟨rfl, (columnWidths_matches_spec _).1 rfl⟩

/-! ### Boolean on/off parsing (C7) -/

/-- C7 counterexample: the claim says an explicit value of "0", "false" or
"off" parses to false and ANY other explicit value parses to true, but the
parser lowercases the value first, so the explicit value "OFF" — which is
none of the three listed strings — parses to false; moreover the run
toggle element `b` ignores its value attribute entirely, so `<w:b
w:val="0"/>` inside a run sets bold to true rather than false. -/
theorem parseOnOff_uppercase_counterexample :
    (("OFF" : String) ≠ "0" ∧ ("OFF" : String) ≠ "false"
      ∧ ("OFF" : String) ≠ "off") ∧
    parseOnOff [{ name := "val", value := "OFF" }] = false ∧
    parseParagraph 5
      [XmlTok.startEl "r" [], XmlTok.startEl "b" [{ name := "val", value := "0" }],
       XmlTok.endEl "b", XmlTok.endEl "r", XmlTok.endEl "p"] {}
      = .ok ({ NewParagraph with runs := [{ NewRun "" with bold := true }] },
             {}, []) := by
  refine ⟨by decide, by decide, ?_⟩
  rfl

/-- C7 amended: `parseOnOff` lowercases the `val` attribute and then maps
"0"/"false"/"off" to false and everything else — including the absent
value, read as "" — to true. -/
theorem parseOnOff_amended (attrs : List XmlAttr) :
    parseOnOff attrs = true ↔
      goToLower (attrValue attrs "val") ∉ (["0", "false", "off"] : List String) := by
  unfold parseOnOff
  simp only []
  split_ifs with h1 h2
  · rcases h1 with h | h | h | h <;> rw [h] <;> decide
  · simp only [Bool.false_eq_true, false_iff]
    rcases h2 with h | h | h <;> rw [h] <;> decide
  · simp only [true_iff]
    intro hmem
    simp only [List.mem_cons, List.not_mem_nil, or_false] at hmem
    exact h2 hmem

/-! ### Table-cell paragraph invariant (C9) -/

theorem parseTableCellLoop_paragraphs_nonempty :
    ∀ (fuel : Nat) (evs : List XmlTok) (startName : String) (cell : TableCell)
      (dp : DocumentPart) (c : TableCell) (dp2 : DocumentPart)
      (rest : List XmlTok),
      parseTableCellLoop fuel evs startName cell dp = .ok (c, dp2, rest) →
      c.paragraphs ≠ [] := by
  intro fuel
  induction fuel with
  | zero =>
    intro evs startName cell dp c dp2 rest h
    simp only [parseTableCellLoop] at h
    exact Except.noConfusion h
  | succ fuel ih =>
    intro evs startName cell dp c dp2 rest h
    match evs with
    | [] =>
      simp only [parseTableCellLoop] at h
      exact Except.noConfusion h
    | t :: rest1 =>
      cases t with
      | startEl name attrs =>
        simp only [parseTableCellLoop] at h
        split_ifs at h
        · split at h
          · exact ih _ _ _ _ _ _ _ h
          · exact Except.noConfusion h
        · split at h
          · exact ih _ _ _ _ _ _ _ h
          · exact Except.noConfusion h
        · split at h
          · exact ih _ _ _ _ _ _ _ h
          · exact Except.noConfusion h
        · split at h
          · exact ih _ _ _ _ _ _ _ h
          · exact Except.noConfusion h
      | endEl name =>
        simp only [parseTableCellLoop] at h
        by_cases hname : name = startName
        · rw [if_pos hname] at h
          by_cases hempty : cell.paragraphs = []
          · rw [if_pos hempty] at h
            injection h with h1
            have hcell : ({ cell with paragraphs := [NewParagraph] } : TableCell)
                = c := congrArg Prod.fst h1
            rw [← hcell]
            simp
          · rw [if_neg hempty] at h
            injection h with h1
            have hcell : cell = c := congrArg Prod.fst h1
            rw [← hcell]
            exact hempty
        · rw [if_neg hname] at h
          exact ih _ _ _ _ _ _ _ h
      | chardata sdata =>
        simp only [parseTableCellLoop] at h
        exact ih _ _ _ _ _ _ _ h

/-- C9: every successfully parsed table cell has at least one paragraph,
and a cell whose element held no paragraph children (so that the cell is
still empty when the end tag arrives) leaves the parser with exactly one
synthesized default paragraph. -/
theorem parseTableCell_synthesizes_paragraph :
    (∀ (fuel : Nat) (evs : List XmlTok) (startName : String)
      (dp : DocumentPart) (c : TableCell) (dp2 : DocumentPart)
      (rest : List XmlTok),
      parseTableCell fuel evs startName dp = .ok (c, dp2, rest) →
      c.paragraphs ≠ []) ∧
    (∀ (fuel : Nat) (evs : List XmlTok) (startName : String)
      (cell : TableCell) (dp : DocumentPart),
      cell.paragraphs = [] →
      parseTableCellLoop (fuel + 1) (XmlTok.endEl startName :: evs) startName
          cell dp
        = .ok ({ cell with paragraphs := [NewParagraph] }, dp, evs)) := by
  constructor
  · intro fuel evs startName dp c dp2 rest h
    exact parseTableCellLoop_paragraphs_nonempty fuel evs startName _ dp c dp2
      rest h
  · intro fuel evs startName cell dp hempty
    simp [parseTableCellLoop, hempty]

/-- Concrete instance of `parseTableCell_synthesizes_paragraph`: an empty
`<w:tc/>` element yields a cell with exactly the one default paragraph. -/
theorem parseTableCell_synthesizes_paragraph_witness :
    ({ width := 1440, paragraphs := [NewParagraph] } : TableCell).paragraphs
      ≠ [] ∧
    parseTableCellLoop 1 [XmlTok.endEl "tc"] "tc" { width := 1440 } {}
      = .ok ({ width := 1440, paragraphs := [NewParagraph] }, {}, []) :=
  ⟨parseTableCell_synthesizes_paragraph.1 1 [XmlTok.endEl "tc"] "tc" {}
      { width := 1440, paragraphs := [NewParagraph] } {} [] (by rfl),
   parseTableCell_synthesizes_paragraph.2 0 [] "tc" { width := 1440 } {}
      (by rfl)⟩

/-! ### Relationship resolution degrades to absent (C6) -/

theorem parseDrawingLoop_target_eq :
    ∀ (fuel : Nat) (evs : List XmlTok) (depth : Nat) (pic pic2 : Picture)
      (rest : List XmlTok),
      parseDrawingLoop fuel evs depth pic = .ok (pic2, rest) →
      pic2.target = pic.target := by
  intro fuel
  induction fuel with
  | zero =>
    intro evs depth pic pic2 rest h
    match depth with
    | 0 =>
      simp only [parseDrawingLoop] at h
      injection h with h1
      injection h1 with ha hb
      rw [← ha]
    | _ + 1 =>
      simp only [parseDrawingLoop] at h
      exact Except.noConfusion h
  | succ fuel ih =>
    intro evs depth pic pic2 rest h
    match depth with
    | 0 =>
      simp only [parseDrawingLoop] at h
      injection h with h1
      injection h1 with ha hb
      rw [← ha]
    | depth + 1 =>
      match evs with
      | [] =>
        simp only [parseDrawingLoop] at h
        exact Except.noConfusion h
      | t :: rest1 =>
        cases t with
        | startEl name attrs =>
          simp only [parseDrawingLoop] at h
          have := ih _ _ _ _ _ h
          rw [this]
          split_ifs <;> (try split) <;> (try split_ifs) <;>
            (try split) <;> rfl
        | endEl name =>
          simp only [parseDrawingLoop] at h
          exact ih _ _ _ _ _ h
        | chardata sdata =>
          simp only [parseDrawingLoop] at h
          exact ih _ _ _ _ _ h

/-- C6: resolving an absent relationship ID returns "not found" (`none`)
rather than an error; an unresolved blip reference in a drawing is not
fatal — `parseDrawing` still succeeds and the picture's target stays
empty; and an unresolved hyperlink ID on a paragraph hyperlink element is
not fatal — parsing continues and the contained run carries no hyperlink
URL or anchor. -/
theorem unresolved_relationship_not_fatal :
    (∀ (rels : List Relationship) (relID : String),
      (∀ r ∈ rels, r.id ≠ relID) → relationshipTarget rels relID = none) ∧
    (∀ (fuel : Nat) (evs : List XmlTok) (dp : DocumentPart) (pic : Picture)
       (rest : List XmlTok),
      parseDrawingLoop fuel evs 1 {} = .ok (pic, rest) →
      relationshipTarget dp.rels pic.relID = none →
      pic.target = "" ∧
      parseDrawing fuel evs dp
        = .ok (pic,
            (if pic.docPrID > dp.drawingCounter then
              { dp with drawingCounter := pic.docPrID } else dp), rest)) ∧
    (∀ (relID : String) (dp : DocumentPart),
      relID ≠ "" →
      relationshipTarget dp.rels relID = none →
      parseParagraph 5
        [XmlTok.startEl "hyperlink" [{ name := "id", value := relID }],
         XmlTok.startEl "r" [], XmlTok.endEl "r", XmlTok.endEl "hyperlink",
         XmlTok.endEl "p"] dp
        = .ok ({ NewParagraph with runs := [NewRun ""] }, dp, []) ∧
      (NewRun "").hasHyperlink = false) := by
  refine ⟨?_, ?_, ?_⟩
  · intro rels relID habsent
    unfold relationshipTarget
    rw [List.find?_eq_none.mpr]
    intro rel hmem
    simpa using habsent rel hmem
  · intro fuel evs dp pic rest hloop hnone
    have htarget : pic.target = "" := parseDrawingLoop_target_eq _ _ _ _ _ _ hloop
    refine ⟨htarget, ?_⟩
    unfold parseDrawing
    rw [hloop]
    simp only [hnone, ite_self]
  · intro relID dp hne hnone
    refine ⟨?_, rfl⟩
    unfold parseParagraph
    simp [parseParagraphLoop, attrValue, hne, hnone, applyHyperlinkContext,
      NewParagraph]

/-- Concrete instance of `unresolved_relationship_not_fatal`: with no
relationships at all, "rId9" does not resolve, yet a drawing whose blip
references it parses successfully with an empty target and a hyperlink
referencing it parses into a plain run. -/
theorem unresolved_relationship_not_fatal_witness :
    relationshipTarget ([] : List Relationship) "rId9" = none ∧
    (({ relID := "rId9" } : Picture).target = "" ∧
      parseDrawing 3
        [XmlTok.startEl "blip" [{ name := "embed", value := "rId9" }],
         XmlTok.endEl "blip", XmlTok.endEl "drawing"] {}
        = .ok ({ relID := "rId9" },
            (if ({ relID := "rId9" } : Picture).docPrID
                > ({} : DocumentPart).drawingCounter then
              { ({} : DocumentPart) with
                  drawingCounter := ({ relID := "rId9" } : Picture).docPrID }
            else {}), [])) ∧
    (parseParagraph 5
        [XmlTok.startEl "hyperlink" [{ name := "id", value := "rId9" }],
         XmlTok.startEl "r" [], XmlTok.endEl "r", XmlTok.endEl "hyperlink",
         XmlTok.endEl "p"] {}
      = .ok ({ NewParagraph with runs := [NewRun ""] }, {}, []) ∧
      (NewRun "").hasHyperlink = false) :=
  ⟨unresolved_relationship_not_fatal.1 [] "rId9" (by simp),
   unresolved_relationship_not_fatal.2.1 3
     [XmlTok.startEl "blip" [{ name := "embed", value := "rId9" }],
      XmlTok.endEl "blip", XmlTok.endEl "drawing"] {} { relID := "rId9" } []
     (by rfl) (by rfl),
   unresolved_relationship_not_fatal.2.2 "rId9" {} (by decide) (by rfl)⟩

/-! ### String facts for the serialization roundtrip (C5) -/

theorem str_mk_data (s : String) : String.mk s.data = s := by
  cases s
  rfl

theorem str_data_append (s t : String) : (s ++ t).data = s.data ++ t.data := by
  cases s
  cases t
  rfl

theorem str_append_nil (s : String) : s ++ "" = s := by
  cases s with
  | mk d =>
    show String.mk (d ++ []) = String.mk d
    rw [List.append_nil]

theorem str_nil_append (s : String) : "" ++ s = s := by
  cases s
  rfl

theorem str_length_data (s : String) : s.length = s.data.length := rfl

theorem str_mk_eq_empty_iff (l : List Char) : String.mk l = "" ↔ l = [] := by
  constructor
  · intro h
    have hd := congrArg String.data h
    simpa using hd
  · intro h
    rw [h]

theorem str_push_append (s : String) (c : Char) (l : List Char) :
    (s.push c) ++ String.mk l = s ++ String.mk (c :: l) := by
  cases s with
  | mk d =>
    show String.mk ((d ++ [c]) ++ l) = String.mk (d ++ (c :: l))
    simp

theorem str_append_amp (s : String) (l : List Char) :
    (s ++ "&") ++ String.mk l = s ++ String.mk ('&' :: l) := by
  cases s with
  | mk d =>
    show String.mk ((d ++ ['&']) ++ l) = String.mk (d ++ ('&' :: l))
    simp

theorem str_append_lt (s : String) (l : List Char) :
    (s ++ "<") ++ String.mk l = s ++ String.mk ('<' :: l) := by
  cases s with
  | mk d =>
    show String.mk ((d ++ ['<']) ++ l) = String.mk (d ++ ('<' :: l))
    simp

theorem str_append_gt (s : String) (l : List Char) :
    (s ++ ">") ++ String.mk l = s ++ String.mk ('>' :: l) := by
  cases s with
  | mk d =>
    show String.mk ((d ++ ['>']) ++ l) = String.mk (d ++ ('>' :: l))
    simp

theorem flatMap_escTextChar (l : List Char) :
    ((l.flatMap (fun c => if c = '&' then "&amp;".data else [c])).flatMap
        (fun c => if c = '<' then "&lt;".data else [c])).flatMap
        (fun c => if c = '>' then "&gt;".data else [c])
      = l.flatMap escTextChar := by
  induction l with
  | nil => rfl
  | cons c l ih =>
    simp only [List.flatMap_cons, List.flatMap_append, ih]
    congr 1
    by_cases h1 : c = '&'
    · subst h1
      rfl
    · by_cases h2 : c = '<'
      · subst h2
        rfl
      · by_cases h3 : c = '>'
        · subst h3
          rfl
        · simp [escTextChar, h1, h2, h3]

theorem xmlEscapeText_charwise (s : String) :
    xmlEscapeText s = String.mk (s.data.flatMap escTextChar) := by
  unfold xmlEscapeText goReplaceAllChar
  exact congrArg String.mk (flatMap_escTextChar s.data)

theorem escTextChar_length_ge (l : List Char) :
    l.length ≤ (l.flatMap escTextChar).length := by
  induction l with
  | nil => simp
  | cons c l ih =>
    simp only [List.flatMap_cons, List.length_append, List.length_cons]
    have : 1 ≤ (escTextChar c).length := by
      unfold escTextChar
      split_ifs <;> simp
    omega

theorem lexXml_nil (fuel : Nat) (acc : String) (toks : List XmlTok) :
    lexXml fuel [] acc toks
      = .ok (toks ++ (if acc = "" then [] else [XmlTok.chardata acc])) := by
  cases fuel <;> rfl

theorem lexXml_escaped (l : List Char) :
    ∀ (fuel : Nat) (acc : String) (toks : List XmlTok) (rest : List Char),
      lexXml (l.length + fuel) (l.flatMap escTextChar ++ rest) acc toks
        = lexXml fuel rest (acc ++ String.mk l) toks := by
  induction l with
  | nil =>
    intro fuel acc toks rest
    simp only [List.length_nil, Nat.zero_add, List.flatMap_nil,
      List.nil_append]
    rw [str_append_nil]
  | cons c l ih =>
    intro fuel acc toks rest
    have hlen : (c :: l).length + fuel = (l.length + fuel) + 1 := by
      simp only [List.length_cons]
      omega
    rw [hlen]
    by_cases h1 : c = '&'
    · subst h1
      show lexXml ((l.length + fuel) + 1)
          ('&' :: ('a' :: 'm' :: 'p' :: ';' :: (l.flatMap escTextChar ++ rest)))
          acc toks = _
      rw [lexXml]
      simp [takeUntil, entityVal]
      rw [ih]
      rw [str_append_amp]
    · by_cases h2 : c = '<'
      · subst h2
        show lexXml ((l.length + fuel) + 1)
            ('&' :: 'l' :: 't' :: ';' :: (l.flatMap escTextChar ++ rest))
            acc toks = _
        rw [lexXml]
        simp [takeUntil, entityVal]
        rw [ih]
        rw [str_append_lt]
      · by_cases h3 : c = '>'
        · subst h3
          show lexXml ((l.length + fuel) + 1)
              ('&' :: 'g' :: 't' :: ';' :: (l.flatMap escTextChar ++ rest))
              acc toks = _
          rw [lexXml]
          simp [takeUntil, entityVal]
          rw [ih]
          rw [str_append_gt]
        · have hesc : escTextChar c = [c] := by
            simp [escTextChar, h1, h2, h3]
          simp only [List.flatMap_cons, hesc, List.singleton_append,
            List.cons_append]
          rw [lexXml]
          rw [if_neg h2, if_neg h1]
          simp only [List.nil_append]
          rw [ih]
          have hp : (acc.push c) ++ String.mk l = acc ++ String.mk (c :: l) :=
            str_push_append acc c l
          rw [hp]

theorem lexXml_step_wr (fuel : Nat) (tail : List Char) (toks : List XmlTok) :
    lexXml (fuel + 1) ('<' :: 'w' :: ':' :: 'r' :: '>' :: tail) "" toks
      = lexXml fuel tail "" (toks ++ [XmlTok.startEl "r" []]) := by
  rw [lexXml]
  simp [takeUntil, lexAttrs, dropNsPrefix]

theorem lexXml_step_wt (fuel : Nat) (tail : List Char) (toks : List XmlTok) :
    lexXml (fuel + 1) ('<' :: 'w' :: ':' :: 't' :: '>' :: tail) "" toks
      = lexXml fuel tail "" (toks ++ [XmlTok.startEl "t" []]) := by
  rw [lexXml]
  simp [takeUntil, lexAttrs, dropNsPrefix]

theorem lexXml_step_wt_selfclose (fuel : Nat) (tail : List Char)
    (toks : List XmlTok) :
    lexXml (fuel + 1) ('<' :: 'w' :: ':' :: 't' :: '/' :: '>' :: tail) "" toks
      = lexXml fuel tail ""
          (toks ++ [XmlTok.startEl "t" [], XmlTok.endEl "t"]) := by
  rw [lexXml]
  simp [takeUntil, lexAttrs, dropNsPrefix]

theorem lexXml_step_endwt (fuel : Nat) (tail : List Char) (acc : String)
    (toks : List XmlTok) :
    lexXml (fuel + 1) ('<' :: '/' :: 'w' :: ':' :: 't' :: '>' :: tail) acc toks
      = lexXml fuel tail ""
          (toks ++ (if acc = "" then [] else [XmlTok.chardata acc])
            ++ [XmlTok.endEl "t"]) := by
  rw [lexXml]
  simp [takeUntil, dropNsPrefix]

theorem lexXml_step_endwr (fuel : Nat) (tail : List Char) (acc : String)
    (toks : List XmlTok) :
    lexXml (fuel + 1) ('<' :: '/' :: 'w' :: ':' :: 'r' :: '>' :: tail) acc toks
      = lexXml fuel tail ""
          (toks ++ (if acc = "" then [] else [XmlTok.chardata acc])
            ++ [XmlTok.endEl "r"]) := by
  rw [lexXml]
  simp [takeUntil, dropNsPrefix]

theorem tokenize_runXmlStr (text : String) :
    tokenizeXml (runXmlStr text) = .ok (runToks text) := by
  by_cases h : text = ""
  · subst h
    rfl
  · unfold tokenizeXml
    have hdata : (runXmlStr text).data
        = '<' :: 'w' :: ':' :: 'r' :: '>' :: '<' :: 'w' :: ':' :: 't' :: '>' ::
          (text.data.flatMap escTextChar
            ++ ('<' :: '/' :: 'w' :: ':' :: 't' :: '>' :: '<' :: '/' :: 'w' ::
                ':' :: 'r' :: '>' :: [])) := by
      simp [runXmlStr, h, str_data_append, xmlEscapeText_charwise]
    have hlen : (runXmlStr text).length
        = (text.data.flatMap escTextChar).length + 22 := by
      rw [str_length_data, hdata]
      simp
    rw [hlen, hdata]
    have e1 : (text.data.flatMap escTextChar).length + 22
        = ((text.data.flatMap escTextChar).length + 21) + 1 := by omega
    rw [e1, lexXml_step_wr]
    have e2 : (text.data.flatMap escTextChar).length + 21
        = ((text.data.flatMap escTextChar).length + 20) + 1 := by omega
    rw [e2, lexXml_step_wt]
    have hge := escTextChar_length_ge text.data
    set m := (text.data.flatMap escTextChar).length - text.data.length with hm
    have e3 : (text.data.flatMap escTextChar).length + 20
        = text.data.length + (m + 20) := by omega
    rw [e3, lexXml_escaped]
    rw [str_nil_append, str_mk_data]
    have e4 : m + 20 = (m + 19) + 1 := by omega
    rw [e4, lexXml_step_endwt]
    have e5 : m + 19 = (m + 18) + 1 := by omega
    rw [e5, lexXml_step_endwr]
    rw [lexXml_nil]
    simp [runToks, h]

theorem parseParagraph_runToks (text : String) (dp : DocumentPart) :
    parseParagraph 6 (runToks text ++ [XmlTok.endEl "p"]) dp
      = .ok ({ NewParagraph with runs := [{ NewRun "" with text := text }] },
             dp, []) := by
  by_cases h : text = ""
  · subst h
    rfl
  · simp [runToks, h, parseParagraph, parseParagraphLoop,
      applyHyperlinkContext, NewParagraph, NewRun, str_nil_append]


theorem toXML_NewRun (text : String) :
    (NewRun text).toXML "" = runXmlStr text := by
  by_cases h : text = ""
  · subst h
    rfl
  · have hA : (NewRun text).contentXML
        = "<w:t>" ++ xmlEscapeText text ++ "</w:t>" := by
      unfold Run.contentXML NewRun
      dsimp only
      rw [if_pos h]
      simp only [Bool.false_eq_true, if_false, str_append_nil]
      have hlen : ¬ ("<w:t>" ++ xmlEscapeText text ++ "</w:t>").length = 0 := by
        rw [str_length_data, str_data_append, str_data_append]
        simp
      rw [if_neg hlen]
    have hhy : (NewRun text).hasHyperlink = false := rfl
    have hrpr : (NewRun text).rPrXML = "" := rfl
    unfold Run.toXML
    rw [hhy]
    simp only [Bool.false_eq_true, if_false]
    rw [hrpr, hA, str_append_nil]
    unfold runXmlStr
    rw [if_neg h]

set_option maxRecDepth 4000 in
/-- C5: a run whose formatting fields all sit at their defaults serializes
with an empty run-properties block (its XML is exactly the bare
`<w:r>…</w:r>` of `runXmlStr`), and lexing that XML and re-parsing the
tokens yields a paragraph holding exactly that run back. -/
theorem run_default_serialization_roundtrip (r : Run)
    (hbold : r.bold = false) (hital : r.italic = false)
    (hstrike : r.strike = false) (hds : r.doubleStrike = false)
    (hsc : r.smallCaps = false) (hac : r.allCaps = false)
    (hsh : r.shadow = false) (hol : r.outline = false)
    (hem : r.emboss = false) (him : r.imprint = false)
    (hu : r.underline = "none") (hsz : r.size = 22)
    (hcol : r.color = "auto") (hfont : r.font = "Calibri")
    (hhl : r.highlight = "auto") (hcs : r.charSpacing = none)
    (hk : r.kern = none) (hbs : r.baselineShift = none)
    (hpic : r.picture = none) (hbr : r.hasBreak = false)
    (hbt : r.breakType = "")
    (hurl : r.hyperlinkURL = "") (hanch : r.hyperlinkAnchor = "") :
    r.rPrXML = "" ∧
    r.toXML "" = runXmlStr r.text ∧
    tokenizeXml (r.toXML "") = .ok (runToks r.text) ∧
    ∀ dp : DocumentPart,
      parseParagraph 6 (runToks r.text ++ [XmlTok.endEl "p"]) dp
        = .ok ({ NewParagraph with runs := [r] }, dp, []) := by
  obtain ⟨text, bold, italic, underline, size, color, font, highlight,
    breakType, hasBreak, hyperlinkURL, hyperlinkAnchor, strike, doubleStrike,
    smallCaps, allCaps, shadow, outline, emboss, imprint, picture,
    charSpacing, kern, baselineShift⟩ := r
  simp only [] at hbold hital hstrike hds hsc hac hsh hol hem him hu hsz hcol hfont hhl hcs hk hbs hpic hbr hbt hurl hanch
  subst hbold hital hstrike hds hsc hac hsh hol hem him hu hsz hcol hfont hhl hcs hk hbs hpic hbr hbt hurl hanch
  have h2 : (NewRun text).toXML "" = runXmlStr text := toXML_NewRun text
  refine ⟨rfl, h2, ?_, ?_⟩
  · show tokenizeXml ((NewRun text).toXML "") = .ok (runToks text)
    rw [h2]
    exact tokenize_runXmlStr text
  · intro dp
    exact parseParagraph_runToks text dp

/-- Concrete instance of `run_default_serialization_roundtrip` on a run
whose text needs escaping. -/
theorem run_default_serialization_roundtrip_witness :
    (NewRun "a&b<c").rPrXML = "" ∧
    (NewRun "a&b<c").toXML "" = runXmlStr "a&b<c" ∧
    tokenizeXml ((NewRun "a&b<c").toXML "") = .ok (runToks "a&b<c") ∧
    parseParagraph 6 (runToks "a&b<c" ++ [XmlTok.endEl "p"]) {}
      = .ok ({ NewParagraph with runs := [NewRun "a&b<c"] }, {}, []) :=
  have h := run_default_serialization_roundtrip (NewRun "a&b<c") rfl rfl rfl
    rfl rfl rfl rfl rfl rfl rfl rfl rfl rfl rfl rfl rfl rfl rfl rfl rfl rfl
    rfl rfl
  ⟨h.1, h.2.1, h.2.2.1, h.2.2.2 {}⟩

end Docx
